import Mathlib

/-!
Verification development for the walnut repository (elk hazard service).

We shallowly embed the core algorithmic code of the repository:

* `src/elk/scraper/transformer.py` — the aggregation / consolidation pipeline
  (entity merging, synthetic id assignment, boundary normalization, output
  rendering);
* `src/elk/api/hazards/geometry.py` — the geometry engine (boundary
  normalization, circle generation, haversine containment, ray casting);
* `src/elk/api/hazards/views.py` — the fuzzy name matching engine
  (`_score_name` / `_fuzzy_rank`, including a faithful embedding of
  Python's `difflib.SequenceMatcher` ratio);
* `src/elk/api/hazards/models.py` — `HazardPresentation.contains`.

Modelling conventions:

* Python strings are modelled as `List Char`; `str.lower` / `str.strip`
  are modelled on their ASCII behaviour (the repository's enum values and
  identifiers are ASCII).
* Python floats are modelled as exact rationals (`ℚ`) where the code only
  does field access / comparisons, and as real numbers (`ℝ`) for the
  trigonometric geometry; floating-point rounding itself is idealized.
* JSON-ish dynamic values are modelled by the inductive type `Raw`.
  Python's `float(x)` coercion is modelled for numbers and booleans;
  numeric strings are not modelled (they do not occur in the repository's
  data or in any claim).
* Fallible code returns `Except` values; every `ValueError`/`TypeError`
  raised by the source is an `Except.error` (messages follow the source
  where it raises `ValueError`).
* Python's stable `sorted` is modelled by `List.insertionSort` with a
  non-strict total key order, which is also stable.
-/

/-! ## Python string model -/

/-- A Python `str`, modelled as a list of characters. -/
abbrev PyStr := List Char

/-- ASCII model of `str.lower` on one character. -/
def pyLowerChar (c : Char) : Char :=
  if 'A' ≤ c ∧ c ≤ 'Z' then Char.ofNat (c.toNat + 32) else c

/-- ASCII model of `str.lower`. -/
def pyLower (s : PyStr) : PyStr := s.map pyLowerChar

/-- Python `str.isspace` for the ASCII whitespace characters recognized by
`str.strip()`. -/
def pyIsSpace (c : Char) : Bool :=
  c = ' ' ∨ c = '\t' ∨ c = '\n' ∨ c = '\r' ∨ c = '\x0b' ∨ c = '\x0c'

/-- Model of `str.strip()`: remove leading and trailing whitespace. -/
def pyStrip (s : PyStr) : PyStr :=
  ((s.dropWhile pyIsSpace).reverse.dropWhile pyIsSpace).reverse

/-- Lexicographic (code-point) comparison of Python strings: `a <= b`. -/
def charsLe : PyStr → PyStr → Bool
  | [], _ => true
  | _ :: _, [] => false
  | a :: as, b :: bs => if a = b then charsLe as bs else decide (a.toNat < b.toNat)

/-- Strict lexicographic comparison `a < b` of Python strings. -/
def charsLt : PyStr → PyStr → Bool
  | _, [] => false
  | [], _ :: _ => true
  | a :: as, b :: bs => if a = b then charsLt as bs else decide (a.toNat < b.toNat)

/-- Python truthiness of an optional string value (`None` and `""` are falsy). -/
def pyTruthy : Option PyStr → Bool
  | none => false
  | some s => !s.isEmpty

/-- Python `a or b` for optional strings (`None`/`""` falsy). -/
def pyOrOpt (a b : Option PyStr) : Option PyStr :=
  if pyTruthy a then a else b

/-! ## Dynamic (JSON-ish) values -/

/-- A dynamic Python/JSON value as it appears in extraction documents and
model fields: `None`, booleans, numbers, strings, lists and dicts. -/
inductive Raw where
  | null : Raw
  | boolean (b : Bool) : Raw
  | num (q : ℚ) : Raw
  | str (s : PyStr) : Raw
  | arr (elems : List Raw) : Raw
  | dict (fields : List (PyStr × Raw)) : Raw

/-- Python truthiness of a `Raw` value. -/
def Raw.falsy : Raw → Bool
  | .null => true
  | .boolean b => !b
  | .num q => q = 0
  | .str s => s.isEmpty
  | .arr xs => xs.isEmpty
  | .dict fs => fs.isEmpty

/-- `dict.get(key)` on an association list with string keys (first binding
wins; Python dicts have unique keys). -/
def rawGet {β : Type} : List (PyStr × β) → PyStr → Option β
  | [], _ => none
  | (k, v) :: rest, key => if k = key then some v else rawGet rest key

/-- `dict.get(key)` returning Python `None` when the key is missing. -/
def rawGetD (fields : List (PyStr × Raw)) (key : PyStr) : Raw :=
  (rawGet fields key).getD .null

/-- Python equality test of a `Raw` value against a string literal. -/
def Raw.isStrEq : Raw → PyStr → Bool
  | .str s, t => s = t
  | _, _ => false

/-- Python `a or b` on dynamic values (used for `point.get("latitude") or
point.get("lat")` in the transformer). -/
def rawOr (a b : Raw) : Raw := if a.falsy then b else a

/-! ## Transformer: scalar helpers (src/elk/scraper/transformer.py) -/

/-- `normalize_name`: `value.strip().lower()`. -/
def normalize_name (value : PyStr) : PyStr := pyLower (pyStrip value)

/-- `to_float`: coerce a dynamic value to a float, `None` on failure.
Numbers and booleans coerce; `None`, lists and dicts do not (numeric
strings are outside the model). -/
def to_float : Raw → Option ℚ
  | .num q => some q
  | .boolean b => some (if b then 1 else 0)
  | _ => none

/-- `HAZARD_SEVERITIES = {"low", "medium", "high"}`. -/
def HAZARD_SEVERITIES : List PyStr := ["low".toList, "medium".toList, "high".toList]

/-- `HAZARD_TYPES = {"animal", "event", "weather", "disease"}`. -/
def HAZARD_TYPES : List PyStr := ["animal".toList, "event".toList, "weather".toList, "disease".toList]

/-- `LOCATION_TYPES` canonicalization table. -/
def LOCATION_TYPES : List (PyStr × PyStr) :=
  [("national park".toList, "National Park".toList), ("region".toList, "Region".toList)]

/-- `normalize_hazard_choice(value, allowed)`: falsy values give `None`;
otherwise the trimmed lowercased value if it belongs to `allowed`, else
`None`. -/
def normalize_hazard_choice (value : Option PyStr) (allowed : List PyStr) : Option PyStr :=
  match value with
  | none => none
  | some v =>
    if v.isEmpty then none
    else
      let candidate := pyLower (pyStrip v)
      if candidate ∈ allowed then some candidate else none

/-- `normalize_location_type(value)`: falsy gives `None`; otherwise the
canonical name from `LOCATION_TYPES`, falling back to the raw value. -/
def normalize_location_type (value : Option PyStr) : Option PyStr :=
  match value with
  | none => none
  | some v =>
    if v.isEmpty then none
    else
      match rawLookup LOCATION_TYPES (pyLower (pyStrip v)) with
      | some canonical => some canonical
      | none => some v
where
  rawLookup : List (PyStr × PyStr) → PyStr → Option PyStr
    | [], _ => none
    | (k, c) :: rest, key => if k = key then some c else rawLookup rest key

/-! ## Transformer: payloads and aggregated entities -/

/-- A presentation fragment under a hazard fragment. -/
structure PresentationPayload where
  location : Option PyStr := none
  notes : Option PyStr := none
  description : Option PyStr := none
  boundary : Raw := .null

/-- The fields of a hazard fragment that the transformer reads. `none`
stands for a missing (or non-string, where the source checks
`isinstance(..., str)`) entry. -/
structure HazardPayload where
  name : Option PyStr := none
  severity : Option PyStr := none
  type : Option PyStr := none
  description : Option PyStr := none
  id : Option PyStr := none
  presentationList : List PresentationPayload := []

/-- A location fragment. -/
structure LocationPayload where
  name : Option PyStr := none
  type : Option PyStr := none
  latitude : Raw := .null
  longitude : Raw := .null
  description : Option PyStr := none
  image : Option PyStr := none
  google_maps_id : Option PyStr := none
  googleMapsId : Option PyStr := none
  boundary : Raw := .null
  id : Option PyStr := none

/-- `AggregatedHazard` (dataclass). -/
structure AggregatedHazard where
  name : PyStr
  severity : Option PyStr := none
  type : Option PyStr := none
  description : Option PyStr := none
  id : Option PyStr := none

/-- Merge of a description field: `if isinstance(d, str) and d.strip() and
not self.description: self.description = d.strip()`. -/
def descriptionMerge (current : Option PyStr) (incoming : Option PyStr) : Option PyStr :=
  match incoming with
  | some d => if !(pyStrip d).isEmpty ∧ !pyTruthy current then some (pyStrip d) else current
  | none => current

/-- `AggregatedHazard.merge(payload)`. -/
def AggregatedHazard.merge (h : AggregatedHazard) (payload : HazardPayload) : AggregatedHazard :=
  let severity := normalize_hazard_choice payload.severity HAZARD_SEVERITIES
  let hazard_type := normalize_hazard_choice payload.type HAZARD_TYPES
  { h with
    severity := pyOrOpt h.severity severity
    type := pyOrOpt h.type hazard_type
    description := descriptionMerge h.description payload.description }

/-- `AggregatedHazard.merge_api_payload(payload)`. -/
def AggregatedHazard.merge_api_payload (h : AggregatedHazard) (payload : HazardPayload) : AggregatedHazard :=
  let h' := h.merge payload
  match payload.id with
  | some i => { h' with id := some i }
  | none => h'

/-- Folding `AggregatedHazard.merge` over a sequence of payloads. -/
def AggregatedHazard.mergeAll (h : AggregatedHazard) (payloads : List HazardPayload) : AggregatedHazard :=
  payloads.foldl AggregatedHazard.merge h

/-! ## Transformer: boundary normalization (`normalize_boundary` in
transformer.py — flattens everything to a single closed point list) -/

/-- A normalized transformer boundary point
(`{"latitude": ..., "longitude": ...}`). -/
structure LatLng where
  latitude : ℚ
  longitude : ℚ
deriving DecidableEq, Repr

/-- Transformer `normalize_point`: dicts use the `latitude`/`lat` and
`longitude`/`lng`/`lon` chains through Python `or` (so falsy coordinates
fall through), sequences of length ≥ 2 use the first two entries; anything
whose parts do not float-coerce gives `None`. A string is a Python
`Sequence` whose character elements never coerce in our model. -/
def normalize_point (point : Raw) : Option LatLng :=
  match point with
  | .dict fs =>
    let lat := to_float (rawOr (rawGetD fs "latitude".toList) (rawGetD fs "lat".toList))
    let lng := to_float (rawOr (rawOr (rawGetD fs "longitude".toList) (rawGetD fs "lng".toList))
      (rawGetD fs "lon".toList))
    match lat, lng with
    | some la, some lo => some ⟨la, lo⟩
    | _, _ => none
  | .arr (a :: b :: _) =>
    match to_float a, to_float b with
    | some la, some lo => some ⟨la, lo⟩
    | _, _ => none
  | _ => none

/-- One step of the transformer's `normalize_boundary` point collection for
a list input: nested lists contribute their member points, other elements
contribute themselves. -/
def collectPoints (elems : List Raw) : List LatLng :=
  (elems.map fun e =>
    match e with
    | .arr inner => inner.filterMap normalize_point
    | _ => (normalize_point e).toList).flatten

/-- `if len(points) < 3: return []`, then close the ring by repeating the
first point when first ≠ last. -/
def closeRing (points : List LatLng) : List LatLng :=
  if points.length < 3 then []
  else
    match points with
    | [] => []
    | p :: _ => if points.getLast? = some p then points else points ++ [p]

mutual
/-- Structural size of a dynamic value, used as recursion fuel. -/
def Raw.size : Raw → Nat
  | .null => 1
  | .boolean _ => 1
  | .num _ => 1
  | .str _ => 1
  | .arr xs => 1 + Raw.sizeList xs
  | .dict fs => 1 + Raw.sizeFields fs
def Raw.sizeList : List Raw → Nat
  | [] => 0
  | x :: xs => Raw.size x + Raw.sizeList xs
def Raw.sizeFields : List (PyStr × Raw) → Nat
  | [] => 0
  | (_, v) :: fs => Raw.size v + Raw.sizeFields fs
end

/-- Fuel-indexed body of the transformer's `normalize_boundary`, as seen
by the crash-free runs of the pipeline. The recursion (GeoJSON dicts
unwrap `coordinates[0]` / `coordinates[0][0]` and recurse) strictly
descends into the value, so `Raw.size` fuel suffices. A `MultiPolygon`
whose `coordinates[0]` is not subscriptable (or is an empty sequence, or a
dict) makes Python raise an uncaught `TypeError`/`IndexError`/`KeyError`;
this projection collapses those crashes to the empty boundary, and
`tNormalizeBoundaryE` below models them faithfully as errors —
`tNormalizeBoundaryEGo_ok` certifies that the two agree on every
non-crashing input, which is how theorems about the pipeline state are
restricted to runs the program completes. -/
def tNormalizeBoundaryGo : Nat → Raw → List LatLng
  | 0, _ => []
  | fuel + 1, raw =>
    if raw.falsy then []
    else
      match raw with
      | .arr elems => closeRing (collectPoints elems)
      | .dict fields =>
        match rawGet fields "coordinates".toList with
        | some (.arr (c0 :: _)) =>
          if (rawGetD fields "type".toList).isStrEq "Polygon".toList then
            tNormalizeBoundaryGo fuel c0
          else if (rawGetD fields "type".toList).isStrEq "MultiPolygon".toList then
            match c0 with
            | .arr (d0 :: _) => tNormalizeBoundaryGo fuel d0
            | _ => []
          else []
        | _ => []
      | _ => []

/-- Transformer `normalize_boundary`. -/
def tNormalizeBoundary (raw : Raw) : List LatLng :=
  tNormalizeBoundaryGo (Raw.size raw) raw

/-- Fuel-indexed faithful body of the transformer's `normalize_boundary`:
the uncaught Python exceptions of the `MultiPolygon` branch
(`coordinates[0][0]` where `coordinates[0]` is a non-subscriptable value,
an empty list or string, or a dict without the key `0`) are modelled as
errors. Indexing a non-empty string yields its one-character first
element, on which the recursion returns the empty boundary. -/
def tNormalizeBoundaryEGo : Nat → Raw → Except String (List LatLng)
  | 0, _ => Except.ok []
  | fuel + 1, raw =>
    if raw.falsy then Except.ok []
    else
      match raw with
      | .arr elems => Except.ok (closeRing (collectPoints elems))
      | .dict fields =>
        match rawGet fields "coordinates".toList with
        | some (.arr (c0 :: _)) =>
          if (rawGetD fields "type".toList).isStrEq "Polygon".toList then
            tNormalizeBoundaryEGo fuel c0
          else if (rawGetD fields "type".toList).isStrEq "MultiPolygon".toList then
            match c0 with
            | .arr (d0 :: _) => tNormalizeBoundaryEGo fuel d0
            | .arr [] => Except.error "IndexError: list index out of range"
            | .str (ch :: _) => tNormalizeBoundaryEGo fuel (.str [ch])
            | .str [] => Except.error "IndexError: string index out of range"
            | .dict _ => Except.error "KeyError: 0"
            | _ => Except.error "TypeError: value is not subscriptable"
          else Except.ok []
        | _ => Except.ok []
      | _ => Except.ok []

/-- The transformer's `normalize_boundary` with its crash paths. -/
def tNormalizeBoundaryE (raw : Raw) : Except String (List LatLng) :=
  tNormalizeBoundaryEGo (Raw.size raw) raw

/-! ## Transformer: aggregates -/

/-- `LocationPresentationAggregate` (dataclass); `notes` models the Python
`set[str]` as its insertion-ordered list of distinct members. -/
structure LocationPresentationAggregate where
  hazard_key : PyStr
  boundary : List LatLng := []
  notes : List PyStr := []

/-- `set.add`: insert if not already present. -/
def notesAdd (notes : List PyStr) (n : PyStr) : List PyStr :=
  if n ∈ notes then notes else notes ++ [n]

/-- `LocationPresentationAggregate.merge(payload)`: keep the first
non-empty normalized boundary, and add the stripped
`notes or description` text to the note set when non-blank. -/
def LocationPresentationAggregate.merge (pres : LocationPresentationAggregate)
    (payload : PresentationPayload) : LocationPresentationAggregate :=
  let boundary := tNormalizeBoundary payload.boundary
  let pres' :=
    if !boundary.isEmpty ∧ pres.boundary.isEmpty then { pres with boundary := boundary } else pres
  match pyOrOpt payload.notes payload.description with
  | some note =>
    if (pyStrip note).isEmpty then pres'
    else { pres' with notes := notesAdd pres'.notes (pyStrip note) }
  | none => pres'

/-- The notes entry of an emitted presentation: a single string when the
set has one member, otherwise the sorted list. -/
inductive NotesOutput where
  | one (s : PyStr) : NotesOutput
  | many (ns : List PyStr) : NotesOutput
deriving DecidableEq, Repr

/-- The dict emitted by `LocationPresentationAggregate.to_dict`; optional
fields are absent (`none`) exactly when the source omits the key. -/
structure PresentationOutput where
  hazard_id : Option PyStr
  hazard_name : PyStr
  boundary : Option (List LatLng)
  notes : Option NotesOutput
  hazard_severity : Option PyStr
  hazard_type : Option PyStr
deriving DecidableEq, Repr

/-- Sorted list of note strings (Python `sorted` over the note set). -/
def sortedNotes (notes : List PyStr) : List PyStr :=
  List.insertionSort (fun a b => charsLe a b = true) notes

/-- `LocationPresentationAggregate.to_dict(hazard)`. -/
def LocationPresentationAggregate.to_dict (pres : LocationPresentationAggregate)
    (hazard : AggregatedHazard) : PresentationOutput :=
  { hazard_id := hazard.id
    hazard_name := hazard.name
    boundary := if pres.boundary.isEmpty then none else some pres.boundary
    notes :=
      if pres.notes.isEmpty then none
      else
        let ns := sortedNotes pres.notes
        if 1 < ns.length then some (.many ns) else some (.one (ns.headD []))
    hazard_severity := if pyTruthy hazard.severity then hazard.severity else none
    hazard_type := if pyTruthy hazard.type then hazard.type else none }

/-- `AggregatedLocation` (dataclass); `presentationMap` models the
insertion-ordered `Dict[str, LocationPresentationAggregate]`. -/
structure AggregatedLocation where
  name : PyStr
  type : Option PyStr := none
  latitude : Option ℚ := none
  longitude : Option ℚ := none
  description : Option PyStr := none
  image : Option PyStr := none
  google_maps_id : Option PyStr := none
  boundary : List LatLng := []
  id : Option PyStr := none
  presentationMap : List (PyStr × LocationPresentationAggregate) := []

/-- `AggregatedLocation.merge(payload)` — first-non-null / first-truthy
wins on every field. -/
def AggregatedLocation.merge (loc : AggregatedLocation) (payload : LocationPayload) :
    AggregatedLocation :=
  let gmid := pyOrOpt payload.google_maps_id payload.googleMapsId
  let boundary := tNormalizeBoundary payload.boundary
  { loc with
    type := pyOrOpt loc.type (normalize_location_type payload.type)
    latitude := if loc.latitude.isSome then loc.latitude else to_float payload.latitude
    longitude := if loc.longitude.isSome then loc.longitude else to_float payload.longitude
    description := descriptionMerge loc.description payload.description
    image := descriptionMerge loc.image payload.image
    google_maps_id := descriptionMerge loc.google_maps_id gmid
    boundary := if !boundary.isEmpty ∧ loc.boundary.isEmpty then boundary else loc.boundary }

/-- Python `dict.setdefault(key, default)` followed by an update of the
entry at `key` (in place, keeping its position; appended at the end when
the key is new). -/
def setdefaultMerge {β : Type} : List (PyStr × β) → PyStr → (β → β) → β → List (PyStr × β)
  | [], key, f, d => [(key, f d)]
  | (k, v) :: rest, key, f, d =>
    if k = key then (k, f v) :: rest else (k, v) :: setdefaultMerge rest key f d

/-- `AggregatedLocation.merge_presentation(hazard_key, payload)`. -/
def AggregatedLocation.merge_presentation (loc : AggregatedLocation) (hazard_key : PyStr)
    (payload : PresentationPayload) : AggregatedLocation :=
  { loc with
    presentationMap :=
      setdefaultMerge loc.presentationMap hazard_key (·.merge payload)
        { hazard_key := hazard_key } }

/-- `AggregatedLocation.merge_api_payload(payload)`. -/
def AggregatedLocation.merge_api_payload (loc : AggregatedLocation) (payload : LocationPayload) :
    AggregatedLocation :=
  let loc' := loc.merge payload
  match payload.id with
  | some i => { loc' with id := some i }
  | none => loc'

/-- The dict emitted by `AggregatedLocation.to_dict`. -/
structure LocationOutput where
  id : Option PyStr
  name : PyStr
  type : Option PyStr
  latitude : Option ℚ
  longitude : Option ℚ
  description : Option PyStr
  image : Option PyStr
  google_maps_id : Option PyStr
  boundary : Option (List LatLng)
  presentationList : List PresentationOutput
deriving DecidableEq, Repr

/-- `AggregatedLocation.to_dict(hazards)`: render the location, embedding
the presentations whose hazard resolved to an id, sorted by hazard name. -/
def AggregatedLocation.to_dict (loc : AggregatedLocation)
    (hazards : List (PyStr × AggregatedHazard)) : LocationOutput :=
  { id := loc.id
    name := loc.name
    type := if pyTruthy loc.type then loc.type else none
    latitude := loc.latitude
    longitude := loc.longitude
    description := if pyTruthy loc.description then loc.description else none
    image := if pyTruthy loc.image then loc.image else none
    google_maps_id := if pyTruthy loc.google_maps_id then loc.google_maps_id else none
    boundary := if loc.boundary.isEmpty then none else some loc.boundary
    presentationList :=
      let rendered := loc.presentationMap.filterMap fun entry =>
        match rawGet hazards entry.1 with
        | some hz => if hz.id.isSome then some (entry.2.to_dict hz) else none
        | none => none
      List.insertionSort (fun a b => charsLe a.hazard_name b.hazard_name = true) rendered }

/-- The dict emitted by `AggregatedHazard.to_dict`. -/
structure HazardOutput where
  id : Option PyStr
  name : PyStr
  severity : Option PyStr
  type : Option PyStr
  description : Option PyStr
deriving DecidableEq, Repr

/-- `AggregatedHazard.to_dict()`. -/
def AggregatedHazard.to_dict (h : AggregatedHazard) : HazardOutput :=
  { id := h.id
    name := h.name
    severity := if pyTruthy h.severity then h.severity else none
    type := if pyTruthy h.type then h.type else none
    description := if pyTruthy h.description then h.description else none }

/-! ## Transformer: the pipeline -/

/-- An extraction document (malformed non-dict fragments are skipped by the
source on ingest and are outside the model). -/
structure Document where
  locations : List LocationPayload := []
  hazards : List HazardPayload := []

/-- The transformer's in-memory state: insertion-ordered maps from
normalized name to aggregate. -/
structure TransformerState where
  locations : List (PyStr × AggregatedLocation) := []
  hazards : List (PyStr × AggregatedHazard) := []

/-- Ingest one location fragment. -/
def ingestLocationPayload (locations : List (PyStr × AggregatedLocation))
    (lp : LocationPayload) : List (PyStr × AggregatedLocation) :=
  match lp.name with
  | none => locations
  | some nm =>
    let key := normalize_name nm
    if key.isEmpty then locations
    else setdefaultMerge locations key (·.merge lp) { name := pyStrip nm }

/-- Ingest one presentation fragment under a hazard key. -/
def ingestPresentationPayload (locations : List (PyStr × AggregatedLocation))
    (hazard_key : PyStr) (pp : PresentationPayload) : List (PyStr × AggregatedLocation) :=
  match pp.location with
  | none => locations
  | some ln =>
    if (pyStrip ln).isEmpty then locations
    else
      setdefaultMerge locations (normalize_name ln)
        (·.merge_presentation hazard_key pp) { name := pyStrip ln }

/-- Ingest one hazard fragment (the hazard itself, then its presentations). -/
def ingestHazardPayload (st : TransformerState) (hp : HazardPayload) : TransformerState :=
  match hp.name with
  | none => st
  | some nm =>
    if (pyStrip nm).isEmpty then st
    else
      let hazard_key := normalize_name nm
      let hazards := setdefaultMerge st.hazards hazard_key (·.merge hp) { name := pyStrip nm }
      let locations := hp.presentationList.foldl
        (fun locs pp => ingestPresentationPayload locs hazard_key pp) st.locations
      { locations := locations, hazards := hazards }

/-- `Transformer._ingest_document`. -/
def ingestDocument (st : TransformerState) (doc : Document) : TransformerState :=
  let st1 : TransformerState :=
    { st with locations := doc.locations.foldl ingestLocationPayload st.locations }
  doc.hazards.foldl ingestHazardPayload st1

/-- Ingest a sequence of documents into an empty state. -/
def ingestDocuments (docs : List Document) : TransformerState :=
  docs.foldl ingestDocument {}

/-- The catalog collaborator (`ElkApiClient`), abstracted as name-indexed
lookup functions; `none` models a transformer configured without an API
client. -/
structure ApiClientModel where
  find_location : PyStr → Option LocationPayload
  find_hazard : PyStr → Option HazardPayload

/-- `Transformer._attach_existing_ids`. -/
def attachExistingIds (api : Option ApiClientModel) (st : TransformerState) : TransformerState :=
  match api with
  | none => st
  | some client =>
    { locations := st.locations.map fun entry =>
        match client.find_location entry.2.name with
        | some m => (entry.1, entry.2.merge_api_payload m)
        | none => entry
      hazards := st.hazards.map fun entry =>
        match client.find_hazard entry.2.name with
        | some m => (entry.1, entry.2.merge_api_payload m)
        | none => entry }

/-- `Transformer._hydrate_locations`: the enrichment collaborator
(`GoogleMapsHydrator`) is abstracted as an update function on locations;
`none` models a hydrator with no Google Maps client, whose `hydrate` is a
no-op. -/
def hydrateLocations (hyd : Option (AggregatedLocation → AggregatedLocation))
    (st : TransformerState) : TransformerState :=
  match hyd with
  | none => st
  | some f => { st with locations := st.locations.map fun entry => (entry.1, f entry.2) }

/-- Decimal rendering of the synthetic-id counter. -/
def natStr (n : Nat) : PyStr := Nat.toDigits 10 n

/-- Replace the value stored at `key`, keeping its position. -/
def alistSet {β : Type} : List (PyStr × β) → PyStr → β → List (PyStr × β)
  | [], _, _ => []
  | (k, v) :: rest, key, nv =>
    if k = key then (k, nv) :: rest else (k, v) :: alistSet rest key nv

/-- One iteration of the `_assign_new_ids` loop: look the key up in the
current map; when the entity's id is `None`, store `tag ++ counter` and
advance the counter. -/
def assignStep {β : Type} (idGet : β → Option PyStr) (idSet : β → PyStr → β) (tag : PyStr)
    (acc : List (PyStr × β) × Nat) (key : PyStr) : List (PyStr × β) × Nat :=
  match rawGet acc.1 key with
  | some entity =>
    match idGet entity with
    | none => (alistSet acc.1 key (idSet entity (tag ++ natStr acc.2)), acc.2 + 1)
    | some _ => acc
  | none => acc

/-- `Transformer._assign_new_ids`, generically over the entity type: walk
the keys in ascending sorted order with a 1-based counter, assigning
`tag ++ n` to every entity whose id is still `None` (the counter advances
only on assignment). -/
def assignNewIdsGeneric {β : Type} (idGet : β → Option PyStr) (idSet : β → PyStr → β)
    (tag : PyStr) (m : List (PyStr × β)) : List (PyStr × β) :=
  let sortedKeys := List.insertionSort (fun a b => charsLe a b = true) (m.map Prod.fst)
  (sortedKeys.foldl (assignStep idGet idSet tag) (m, 1)).1

/-- `Transformer._assign_new_ids` on the whole state. -/
def assignNewIds (st : TransformerState) : TransformerState :=
  { locations :=
      assignNewIdsGeneric (·.id) (fun l i => { l with id := some i })
        "new-location-".toList st.locations
    hazards :=
      assignNewIdsGeneric (·.id) (fun h i => { h with id := some i })
        "new-hazard-".toList st.hazards }

/-- The payload returned by `transform_documents`. -/
structure TransformOutput where
  locations : List LocationOutput
  hazards : List HazardOutput
deriving DecidableEq, Repr

/-- `Transformer._build_output`: both arrays sorted case-insensitively by
entity name. -/
def buildOutput (st : TransformerState) : TransformOutput :=
  { locations :=
      (List.insertionSort (fun a b => charsLe (pyLower a.2.name) (pyLower b.2.name) = true)
        st.locations).map fun entry => entry.2.to_dict st.hazards
    hazards :=
      (List.insertionSort (fun a b => charsLe (pyLower a.2.name) (pyLower b.2.name) = true)
        st.hazards).map fun entry => entry.2.to_dict }

/-- The state after the Ingest, Resolve, Hydrate and Assign stages. -/
def pipelineState (api : Option ApiClientModel)
    (hyd : Option (AggregatedLocation → AggregatedLocation)) (docs : List Document) :
    TransformerState :=
  assignNewIds (hydrateLocations hyd (attachExistingIds api (ingestDocuments docs)))

/-- `Transformer.transform_documents`. -/
def transform_documents (api : Option ApiClientModel)
    (hyd : Option (AggregatedLocation → AggregatedLocation)) (docs : List Document) :
    TransformOutput :=
  buildOutput (pipelineState api hyd docs)

/-- The document mentions normalized location key `k`: either through a
location fragment with that normalized name, or through a presentation
fragment (under a validly named hazard) at a location with that normalized
name. The ingest stage creates exactly these keys. -/
def mentionsLocationKey (doc : Document) (k : PyStr) : Prop :=
  (∃ lp ∈ doc.locations, ∃ nm, lp.name = some nm ∧
    normalize_name nm = k ∧ (normalize_name nm).isEmpty = false) ∨
  (∃ hp ∈ doc.hazards, ∃ nm, hp.name = some nm ∧ (pyStrip nm).isEmpty = false ∧
    ∃ pp ∈ hp.presentationList, ∃ ln, pp.location = some ln ∧
      (pyStrip ln).isEmpty = false ∧ normalize_name ln = k)

/-- The document mentions normalized hazard key `k` through a validly
named hazard fragment. -/
def mentionsHazardKey (doc : Document) (k : PyStr) : Prop :=
  ∃ hp ∈ doc.hazards, ∃ nm, hp.name = some nm ∧ (pyStrip nm).isEmpty = false ∧
    normalize_name nm = k

/-- Concrete fixture: a presentation fragment used to exercise the
pipeline at concrete inputs. -/
def fixturePresentation : PresentationPayload :=
  { location := some "Rocky Park".toList, notes := some "Care.".toList }

/-- Concrete fixture: a hazard fragment with one presentation. -/
def fixtureHazard : HazardPayload :=
  { name := some "Avalanche".toList, presentationList := [fixturePresentation] }

/-- Concrete fixture: a document with one location and one hazard. -/
def fixtureDoc1 : Document :=
  { locations := [{ name := some "Sunset Region".toList }]
    hazards := [{ name := some "Flooding".toList }] }

/-- Concrete fixture: a document with one hazard presenting at a location. -/
def fixtureDoc2 : Document := { hazards := [fixtureHazard] }

/-- Whether the entity stored at `k` (if any) still lacks an id. -/
def idIsNoneAt {β : Type} (idGet : β → Option PyStr) (cur : List (PyStr × β)) (k : PyStr) :
    Bool :=
  match rawGet cur k with
  | some e => (idGet e).isNone
  | none => false

/-! ## API geometry engine (src/elk/api/hazards/geometry.py) -/

/-- `geometry.Point` (frozen dataclass), with exact rational coordinates. -/
structure Point where
  latitude : ℚ
  longitude : ℚ
deriving DecidableEq, Repr

/-- `_looks_like_point(raw)`: a 2-element list/tuple, or a dict with
`latitude` and `longitude` keys. -/
def looks_like_point : Raw → Bool
  | .arr xs => xs.length == 2
  | .dict fs => (rawGet fs "latitude".toList).isSome && (rawGet fs "longitude".toList).isSome
  | _ => false

/-- Python `float(x)` where failure raises (`ValueError`/`TypeError`):
numbers and booleans coerce, everything else fails (numeric strings are
outside the model). -/
def floatCoerce (v : Raw) : Except String ℚ :=
  match to_float v with
  | some q => .ok q
  | none => .error "float coercion failed"

/-- `_coerce_point(raw)`. -/
def coerce_point : Raw → Except String Point
  | .arr [la, lo] => do
    let lat ← floatCoerce la
    let lng ← floatCoerce lo
    return { latitude := lat, longitude := lng }
  | .dict fs =>
    match rawGet fs "latitude".toList, rawGet fs "longitude".toList with
    | some la, some lo => do
      let lat ← floatCoerce la
      let lng ← floatCoerce lo
      return { latitude := lat, longitude := lng }
    | _, _ => .error "Boundary points must include latitude and longitude keys"
  | _ => .error "Unsupported boundary coordinate format"

/-- The point-list comprehension `[_coerce_point(p) for p in raw_polygon]`:
left to right, first failure raises. -/
def coerceAll : List Raw → Except String (List Point)
  | [] => .ok []
  | p :: ps =>
    match coerce_point p with
    | .error e => .error e
    | .ok pt =>
      match coerceAll ps with
      | .error e => .error e
      | .ok pts => .ok (pt :: pts)

/-- `add_polygon(raw_polygon)` (the closure in `normalize_boundary`):
coerce every point, then require at least three. -/
def add_polygon (raw_polygon : List Raw) : Except String (List Point) :=
  match coerceAll raw_polygon with
  | .error e => .error e
  | .ok polygon =>
    if polygon.length < 3 then .error "Boundary polygons require at least three points"
    else .ok polygon

/-- `add_polygon` applied to an arbitrary iterable value (`coordinates[0]`
inside the dict branches need not be a list). Iterating a string yields
1-character strings and a dict yields its keys, none of which coerce, so
non-list values always fail: empty iterables fail the 3-point check and
non-iterables raise `TypeError`. -/
def addPolygonRaw : Raw → Except String (List Point)
  | .arr xs => add_polygon xs
  | .str s =>
    if s.isEmpty then .error "Boundary polygons require at least three points"
    else .error "Unsupported boundary coordinate format"
  | .dict fs =>
    if fs.isEmpty then .error "Boundary polygons require at least three points"
    else .error "Unsupported boundary coordinate format"
  | _ => .error "TypeError: value is not iterable"

/-- `normalize_boundary(raw_boundary)` (API geometry version): normalize
JSON boundary structures to a list of polygons of Points. In the dict
branches, a truthy non-list `coordinates` (or member polygon) is not
subscriptable/iterable in Python and is modelled by the coordinate-format
error. -/
def normalize_boundary (raw_boundary : Raw) : Except String (List (List Point)) :=
  match raw_boundary with
  | .null => .ok []
  | .dict fields =>
    match rawGet fields "coordinates".toList with
    | none => .error "Boundary coordinate list is empty"
    | some coords =>
      if coords.falsy then .error "Boundary coordinate list is empty"
      else if (rawGetD fields "type".toList).isStrEq "Polygon".toList then
        match coords with
        | .arr (c0 :: cs) =>
          (if looks_like_point c0 then add_polygon (c0 :: cs) else addPolygonRaw c0).map
            (fun p => [p])
        | _ => .error "Unsupported boundary coordinate format"
      else if (rawGetD fields "type".toList).isStrEq "MultiPolygon".toList then
        match coords with
        | .arr cs =>
          cs.mapM fun polygon =>
            match polygon with
            | .arr (p0 :: ps) =>
              if looks_like_point p0 then add_polygon (p0 :: ps) else addPolygonRaw p0
            | .arr [] => add_polygon []
            | other =>
              if other.falsy then addPolygonRaw other
              else .error "Unsupported boundary coordinate format"
        | _ => .error "Unsupported boundary coordinate format"
      else .error "Unrecognised boundary dict structure"
  | .arr xs =>
    if xs.isEmpty then .ok []
    else if xs.all looks_like_point then
      (add_polygon xs).map (fun p => [p])
    else
      xs.mapM fun polygon =>
        match polygon with
        | .arr ps => add_polygon ps
        | _ => .error "Unsupported boundary polygon format"
  | _ => .error "Unsupported boundary type"

/-! ## Fuzzy matching engine: `difflib.SequenceMatcher` ratio
(src/elk/api/hazards/views.py `_score_name` / `_fuzzy_rank`, and
transformer.py `score_name`) -/

/-- Out-of-range placeholder character (list indices in the matcher are
always in range; the default is never compared meaningfully). -/
def defaultChar : Char := Char.ofNat 0

/-- The occurrence map `b2j` before autojunk: the ascending list of
positions of `c` in `b`. -/
def b2jAll (b : List Char) (c : Char) : List Nat :=
  (List.range b.length).filter (fun j => b.getD j defaultChar = c)

/-- The autojunk rule: for `len(b) >= 200`, elements occurring more than
`len(b) // 100 + 1` times are "popular" and dropped from `b2j`. -/
def popularB (b : List Char) (c : Char) : Bool :=
  decide (200 ≤ b.length) && decide (b.length / 100 + 1 < b.count c)

/-- `b2j` with autojunk applied. -/
def b2j (b : List Char) (c : Char) : List Nat :=
  if popularB b c then [] else b2jAll b c

/-- One inner-loop step of `find_longest_match`'s dynamic program: extend
the match ending at `(i, j)` using the previous row `j2lenOld`, record it
in the new row, and take it as the best when strictly longer (so the
earliest `i`, then earliest `j`, wins ties). `j2len.get(-1, 0)` is 0. -/
def flmInner (j2lenOld : Nat → Nat) (i : Nat)
    (st : (Nat → Nat) × (Nat × Nat × Nat)) (j : Nat) : (Nat → Nat) × (Nat × Nat × Nat) :=
  let k := (if j = 0 then 0 else j2lenOld (j - 1)) + 1
  let newj2len := fun j' => if j' = j then k else st.1 j'
  if st.2.2.2 < k then (newj2len, (i + 1 - k, j + 1 - k, k)) else (newj2len, st.2)

/-- The dynamic-programming phase of `find_longest_match` over
`a[alo:ahi]` and `b[blo:bhi]` (the `continue`/`break` of the inner loop
equal a range filter because `b2j` lists are ascending). -/
def flmDP (a b : List Char) (alo ahi blo bhi : Nat) : (Nat → Nat) × (Nat × Nat × Nat) :=
  (List.range' alo (ahi - alo)).foldl
    (fun st i =>
      let js := (b2j b (a.getD i defaultChar)).filter
        (fun j => decide (blo ≤ j) && decide (j < bhi))
      js.foldl (flmInner st.1 i) ((fun _ => 0), st.2))
    ((fun _ => 0), (alo, blo, 0))

/-- The backward extension loop of `find_longest_match` (the junk set is
empty for `SequenceMatcher(None, ...)`, so the first while loop extends
over every equal character and the third is a no-op). Fuel `besti` bounds
the iteration count. -/
def extendBack (a b : List Char) (alo blo : Nat) : Nat → Nat × Nat × Nat → Nat × Nat × Nat
  | 0, st => st
  | fuel + 1, (bi, bj, bs) =>
    if alo < bi ∧ blo < bj ∧ a.getD (bi - 1) defaultChar = b.getD (bj - 1) defaultChar then
      extendBack a b alo blo fuel (bi - 1, bj - 1, bs + 1)
    else (bi, bj, bs)

/-- The forward extension loop of `find_longest_match` (second while loop;
the fourth is a no-op). Fuel `ahi` bounds the iteration count. -/
def extendFwd (a b : List Char) (ahi bhi : Nat) : Nat → Nat × Nat × Nat → Nat × Nat × Nat
  | 0, st => st
  | fuel + 1, (bi, bj, bs) =>
    if bi + bs < ahi ∧ bj + bs < bhi ∧
        a.getD (bi + bs) defaultChar = b.getD (bj + bs) defaultChar then
      extendFwd a b ahi bhi fuel (bi, bj, bs + 1)
    else (bi, bj, bs)

/-- `SequenceMatcher.find_longest_match(alo, ahi, blo, bhi)`. -/
def find_longest_match (a b : List Char) (alo ahi blo bhi : Nat) : Nat × Nat × Nat :=
  let st := flmDP a b alo ahi blo bhi
  let best := extendBack a b alo blo st.2.1 st.2
  extendFwd a b ahi bhi ahi best

/-- The total size of the matching blocks found by
`get_matching_blocks`'s divide-and-conquer (only the sum matters for the
ratio; the queue order and adjacent-block merging do not change it). The
fuel dominates the recursion depth, which shrinks the `a`-range by at
least one per level. -/
def matchSum (a b : List Char) : Nat → Nat → Nat → Nat → Nat → Nat
  | 0, _, _, _, _ => 0
  | fuel + 1, alo, ahi, blo, bhi =>
    let m := find_longest_match a b alo ahi blo bhi
    if m.2.2 = 0 then 0
    else
      m.2.2 + (if alo < m.1 ∧ blo < m.2.1 then matchSum a b fuel alo m.1 blo m.2.1 else 0)
        + (if m.1 + m.2.2 < ahi ∧ m.2.1 + m.2.2 < bhi then
            matchSum a b fuel (m.1 + m.2.2) ahi (m.2.1 + m.2.2) bhi else 0)

/-- `SequenceMatcher.ratio()`: `2 * M / T`, or 1 when both inputs are
empty. -/
def ratioValue (a b : List Char) : ℚ :=
  let total := matchSum a b (a.length + 1) 0 a.length 0 b.length
  if a.length + b.length = 0 then 1 else mkRat (2 * total) (a.length + b.length)

/-- Python `needle in hay` on strings: substring containment. -/
def containsSub : PyStr → PyStr → Bool
  | needle, [] => needle.isEmpty
  | needle, h :: t => needle.isPrefixOf (h :: t) || containsSub needle t

/-- Transformer `score_name(candidate, query)` — no empty-candidate
check. -/
def score_name (candidate query : PyStr) : ℚ :=
  let candidate_lower := pyLower candidate
  let query_lower := pyLower query
  let r := ratioValue candidate_lower query_lower
  if query_lower.isPrefixOf candidate_lower then max r (mkRat 95 100)
  else if containsSub query_lower candidate_lower then max r (mkRat 85 100)
  else r

/-- Views `_score_name(candidate, query)` — returns 0 for an empty
candidate before any matching. -/
def score_name_view (candidate query : PyStr) : ℚ :=
  let candidate_lower := pyLower candidate
  let query_lower := pyLower query
  if candidate_lower.isEmpty then 0
  else
    let r := ratioValue candidate_lower query_lower
    if query_lower.isPrefixOf candidate_lower then max r (mkRat 95 100)
    else if containsSub query_lower candidate_lower then max r (mkRat 85 100)
    else r

/-- `FUZZY_MIN_SCORE = 0.35`. -/
def FUZZY_MIN_SCORE : ℚ := mkRat 35 100

/-- A ranked candidate: the views rank objects by their `name`
attribute. -/
structure Candidate where
  name : PyStr
deriving DecidableEq, Repr

/-- The sort key order of `_fuzzy_rank`'s `sorted(pool, key=(-score,
name))`: descending score, ties by ascending name (non-strict, so the
stable sort model matches Python's stable `sorted`). -/
def rankKeyLe (x y : ℚ × Candidate) : Prop :=
  y.1 < x.1 ∨ (x.1 = y.1 ∧ charsLe x.2.name y.2.name = true)

instance : DecidableRel rankKeyLe := fun x y => by
  unfold rankKeyLe
  infer_instance

/-- `_fuzzy_rank(queryset, query, limit)`. -/
def fuzzy_rank (candidates : List Candidate) (query : PyStr) (limit : Nat) : List Candidate :=
  if candidates.isEmpty then []
  else
    let scored := candidates.map (fun c => (score_name_view c.name query, c))
    let significant := scored.filter (fun sc => decide (FUZZY_MIN_SCORE ≤ sc.1))
    let pool := if significant.isEmpty then scored else significant
    let sorted_pool := List.insertionSort rankKeyLe pool
    (sorted_pool.take limit).map Prod.snd

/-! ## Real-valued geometry (src/elk/api/hazards/geometry.py, trigonometric part,
and src/elk/api/hazards/models.py `HazardPresentation.contains`)

Python floats are idealized as real numbers. `math.atan2 y x` is modeled as
the argument of the complex number `x + y*I`, which agrees with `atan2` on
its whole domain (including `atan2 0 0 = 0`). -/

structure RPoint where
  latitude : ℝ
  longitude : ℝ

def EARTH_RADIUS_METERS : ℝ := 6371000

noncomputable def radiansOf (deg : ℝ) : ℝ := deg * Real.pi / 180

noncomputable def degreesOf (rad : ℝ) : ℝ := rad * 180 / Real.pi

noncomputable def atan2 (y x : ℝ) : ℝ := Complex.arg ⟨x, y⟩

/-- The haversine great-circle distance computed inside `point_within_circle`. -/
noncomputable def haversineDistance (point center : RPoint) : ℝ :=
  let lat1 := radiansOf point.latitude
  let lon1 := radiansOf point.longitude
  let lat2 := radiansOf center.latitude
  let lon2 := radiansOf center.longitude
  let delta_lat := lat2 - lat1
  let delta_lon := lon2 - lon1
  let a := Real.sin (delta_lat / 2) ^ 2 +
    Real.cos lat1 * Real.cos lat2 * Real.sin (delta_lon / 2) ^ 2
  let c := 2 * atan2 (Real.sqrt a) (Real.sqrt (1 - a))
  EARTH_RADIUS_METERS * c

noncomputable def point_within_circle (point center : RPoint) (radius_meters : ℝ) : Bool :=
  if radius_meters ≤ 0 then false
  else decide (haversineDistance point center ≤ radius_meters)

/-- One step of the `circle_boundary` loop: the destination point at the
given angular distance and bearing from the center. -/
noncomputable def circlePoint (center : RPoint) (angular_distance bearing : ℝ) : RPoint :=
  let center_lat := radiansOf center.latitude
  let center_lng := radiansOf center.longitude
  let lat := Real.arcsin (Real.sin center_lat * Real.cos angular_distance +
    Real.cos center_lat * Real.sin angular_distance * Real.cos bearing)
  let lng := center_lng + atan2
    (Real.sin bearing * Real.sin angular_distance * Real.cos center_lat)
    (Real.cos angular_distance - Real.sin center_lat * Real.sin lat)
  { latitude := degreesOf lat, longitude := degreesOf lng }

noncomputable def circle_boundary (center : RPoint) (radius_meters : ℝ)
    (segments : ℤ) : Except String (List RPoint) :=
  if radius_meters ≤ 0 then Except.error "Radius must be greater than zero"
  else if segments < 3 then Except.error "Circle boundary requires at least three segments"
  else Except.ok ((List.range segments.toNat).map fun (step : ℕ) =>
    circlePoint center (radius_meters / EARTH_RADIUS_METERS)
      (2 * Real.pi * (step : ℝ) / (segments : ℝ)))

/-- Ray casting (`_point_in_polygon`); boundary coordinates stay rational. -/
def point_in_polygon (polygon : List Point) (point : Point) : Bool :=
  if polygon.isEmpty then false
  else
    let x := point.longitude
    let y := point.latitude
    let n := polygon.length
    (List.range n).foldl (fun inside i =>
      let vi := polygon.getD i { latitude := 0, longitude := 0 }
      let vj := polygon.getD ((i + n - 1) % n) { latitude := 0, longitude := 0 }
      let xi := vi.longitude
      let yi := vi.latitude
      let xj := vj.longitude
      let yj := vj.latitude
      if (decide (y < yi)) ≠ (decide (y < yj)) then
        let slope := (xj - xi) / (yj - yi + 1 / 10 ^ 12)
        let intersect_x := slope * (y - yi) + xi
        if x < intersect_x then !inside else inside
      else inside) false

def point_within_boundary (polygons : List (List Point)) (point : Point) : Bool :=
  polygons.any (fun poly => point_in_polygon poly point)

/-- The fields of `HazardPresentation` that `contains` reads: decimal center
coordinates, a positive-integer radius, and a JSON boundary. -/
structure PresentationModel where
  center_latitude : ℚ
  center_longitude : ℚ
  radius_meters : ℕ
  boundary : Raw

/-- `HazardPresentation.contains(latitude, longitude)`; a `ValueError`
raised by `normalized_boundary` propagates as an `Except.error`. -/
noncomputable def PresentationModel.contains (p : PresentationModel)
    (latitude longitude : ℚ) : Except String Bool :=
  let point : Point := { latitude := latitude, longitude := longitude }
  if point_within_circle { latitude := (latitude : ℝ), longitude := (longitude : ℝ) }
      { latitude := (p.center_latitude : ℝ), longitude := (p.center_longitude : ℝ) }
      (p.radius_meters : ℝ) then Except.ok true
  else
    match normalize_boundary p.boundary with
    | Except.error e => Except.error e
    | Except.ok polygons =>
      if polygons.isEmpty then Except.ok false
      else Except.ok (point_within_boundary polygons point)

/-! # Theorems -/

/-- `normalize_hazard_choice` yields `none` or a member of `allowed`. -/
theorem normalize_hazard_choice_mem (value : Option PyStr) (allowed : List PyStr) :
    normalize_hazard_choice value allowed = none ∨
      ∃ v, v ∈ allowed ∧ normalize_hazard_choice value allowed = some v := by
  unfold normalize_hazard_choice
  match value with
  | none => exact Or.inl rfl
  | some v =>
    by_cases he : v.isEmpty
    · simp [he]
    · by_cases hm : pyLower (pyStrip v) ∈ allowed
      · exact Or.inr ⟨pyLower (pyStrip v), hm, by simp [he, hm]⟩
      · simp [he, hm]

/-- Members of the severity enum are non-empty strings. -/
theorem severities_not_empty : ∀ v ∈ HAZARD_SEVERITIES, v.isEmpty = false := by decide

/-- Members of the type enum are non-empty strings. -/
theorem types_not_empty : ∀ v ∈ HAZARD_TYPES, v.isEmpty = false := by decide

/-- A single merge keeps a non-empty severity value unchanged. -/
theorem merge_keeps_truthy_severity (h : AggregatedHazard) (p : HazardPayload)
    (v : PyStr) (hv : v.isEmpty = false) (hs : h.severity = some v) :
    (h.merge p).severity = some v := by
  simp [AggregatedHazard.merge, hs, pyOrOpt, pyTruthy, hv]

/-- A single merge keeps a non-empty type value unchanged. -/
theorem merge_keeps_truthy_type (h : AggregatedHazard) (p : HazardPayload)
    (v : PyStr) (hv : v.isEmpty = false) (ht : h.type = some v) :
    (h.merge p).type = some v := by
  simp [AggregatedHazard.merge, ht, pyOrOpt, pyTruthy, hv]

/-- The severity/type "none or in the enum" invariant is preserved by one merge. -/
theorem merge_preserves_enum_invariant (h : AggregatedHazard) (p : HazardPayload)
    (hsev : h.severity = none ∨ ∃ v, v ∈ HAZARD_SEVERITIES ∧ h.severity = some v)
    (htyp : h.type = none ∨ ∃ v, v ∈ HAZARD_TYPES ∧ h.type = some v) :
    ((h.merge p).severity = none ∨ ∃ v, v ∈ HAZARD_SEVERITIES ∧ (h.merge p).severity = some v)
      ∧ ((h.merge p).type = none ∨ ∃ v, v ∈ HAZARD_TYPES ∧ (h.merge p).type = some v) := by
  constructor
  · rcases hsev with hs | ⟨v, hv, hs⟩
    · rcases normalize_hazard_choice_mem p.severity HAZARD_SEVERITIES with hn | ⟨w, hw, hn⟩
      · exact Or.inl (by simp [AggregatedHazard.merge, hs, pyOrOpt, pyTruthy, hn])
      · exact Or.inr ⟨w, hw, by simp [AggregatedHazard.merge, hs, pyOrOpt, pyTruthy, hn]⟩
    · exact Or.inr ⟨v, hv, merge_keeps_truthy_severity h p v (severities_not_empty v hv) hs⟩
  · rcases htyp with ht | ⟨v, hv, ht⟩
    · rcases normalize_hazard_choice_mem p.type HAZARD_TYPES with hn | ⟨w, hw, hn⟩
      · exact Or.inl (by simp [AggregatedHazard.merge, ht, pyOrOpt, pyTruthy, hn])
      · exact Or.inr ⟨w, hw, by simp [AggregatedHazard.merge, ht, pyOrOpt, pyTruthy, hn]⟩
    · exact Or.inr ⟨v, hv, merge_keeps_truthy_type h p v (types_not_empty v hv) ht⟩

/-- C1: over any sequence of merged source-document payloads, starting from a
hazard whose severity/type are unset or valid enum members: (i) the merged
hazard's severity and type are still unset or valid members of
{low, medium, high} / {animal, event, weather, disease} — an out-of-enum
value is never stored; and (ii) once severity (resp. type) holds a value it
is never changed by any later merge (first-non-null-wins). -/
theorem C1_enum_first_non_null_wins (h : AggregatedHazard) (ps : List HazardPayload)
    (hsev : h.severity = none ∨ ∃ v, v ∈ HAZARD_SEVERITIES ∧ h.severity = some v)
    (htyp : h.type = none ∨ ∃ v, v ∈ HAZARD_TYPES ∧ h.type = some v) :
    ((h.mergeAll ps).severity = none ∨
        ∃ v, v ∈ HAZARD_SEVERITIES ∧ (h.mergeAll ps).severity = some v)
      ∧ ((h.mergeAll ps).type = none ∨
        ∃ v, v ∈ HAZARD_TYPES ∧ (h.mergeAll ps).type = some v)
      ∧ (∀ v, v ∈ HAZARD_SEVERITIES → h.severity = some v → (h.mergeAll ps).severity = some v)
      ∧ (∀ v, v ∈ HAZARD_TYPES → h.type = some v → (h.mergeAll ps).type = some v) := by
  induction ps generalizing h with
  | nil => exact ⟨hsev, htyp, fun v _ hv => hv, fun v _ hv => hv⟩
  | cons p ps ih =>
    have step := merge_preserves_enum_invariant h p hsev htyp
    have rest := ih (h.merge p) step.1 step.2
    refine ⟨rest.1, rest.2.1, ?_, ?_⟩
    · intro v hv hs
      exact rest.2.2.1 v hv (merge_keeps_truthy_severity h p v (severities_not_empty v hv) hs)
    · intro v hv ht
      exact rest.2.2.2 v hv (merge_keeps_truthy_type h p v (types_not_empty v hv) ht)

/-- Witness for C1 at a concrete hazard and payload sequence: the hazard
starts unset, the first document sets severity "high" / type "animal"
(after trimming and lowercasing), a later document's differing values are
ignored, and an out-of-enum value ("extreme") is never stored. -/
theorem C1_enum_first_non_null_wins_witness :
    (let h : AggregatedHazard := { name := "Bear Activity".toList }
     let p1 : HazardPayload := { severity := some " HIGH ".toList, type := some "animal".toList }
     let p2 : HazardPayload := { severity := some "low".toList, type := some "weather".toList }
     let p3 : HazardPayload := { severity := some "extreme".toList, type := some "volcano".toList }
     (h.severity = none ∨ ∃ v, v ∈ HAZARD_SEVERITIES ∧ h.severity = some v)
       ∧ ((h.mergeAll [p1, p2, p3]).severity = none ∨
            ∃ v, v ∈ HAZARD_SEVERITIES ∧ (h.mergeAll [p1, p2, p3]).severity = some v)
       ∧ (h.mergeAll [p1, p2, p3]).severity = some "high".toList
       ∧ (h.mergeAll [p1, p2, p3]).type = some "animal".toList) := by
  refine ⟨Or.inl rfl, ?_, by decide, by decide⟩
  exact (C1_enum_first_non_null_wins _ [_, _, _] (Or.inl rfl) (Or.inl rfl)).1

/-! ## Order lemmas for code-point string comparison -/

/-- `Char.toNat` determines the character. -/
theorem char_toNat_inj {a b : Char} (h : a.toNat = b.toNat) : a = b :=
  Char.ext (UInt32.toNat.inj h)

/-- `charsLe` is total. -/
theorem charsLe_total (a : PyStr) : ∀ b, charsLe a b = true ∨ charsLe b a = true := by
  induction a with
  | nil => intro b; exact Or.inl rfl
  | cons x xs ih =>
    intro b
    match b with
    | [] => exact Or.inr rfl
    | y :: ys =>
      by_cases hxy : x = y
      · subst hxy
        rcases ih ys with h | h
        · exact Or.inl (by simp [charsLe, h])
        · exact Or.inr (by simp [charsLe, h])
      · have hnat : x.toNat ≠ y.toNat := fun h => hxy (char_toNat_inj h)
        rcases Nat.lt_or_ge x.toNat y.toNat with h | h
        · exact Or.inl (by simp [charsLe, hxy, h])
        · have h' : y.toNat < x.toNat := lt_of_le_of_ne h (Ne.symm hnat)
          exact Or.inr (by simp [charsLe, Ne.symm hxy, h'])

/-- `charsLe` is transitive. -/
theorem charsLe_trans : ∀ a b c : PyStr, charsLe a b = true → charsLe b c = true →
    charsLe a c = true := by
  intro a
  induction a with
  | nil => intro b c _ _; rfl
  | cons x xs ih =>
    intro b c hab hbc
    match b, c with
    | [], _ => simp [charsLe] at hab
    | _ :: _, [] => simp [charsLe] at hbc
    | y :: ys, z :: zs =>
      by_cases hxy : x = y <;> by_cases hyz : y = z
      · subst hxy; subst hyz
        simp only [charsLe, if_pos rfl] at hab hbc ⊢
        exact ih ys zs hab hbc
      · subst hxy
        simp only [charsLe, if_pos rfl] at hab
        simpa [charsLe, hyz] using hbc
      · subst hyz
        simpa [charsLe, hxy] using hab
      · simp only [charsLe, if_neg hxy, decide_eq_true_eq] at hab
        simp only [charsLe, if_neg hyz, decide_eq_true_eq] at hbc
        have hxz : x.toNat < z.toNat := lt_trans hab hbc
        have : x ≠ z := fun h => absurd (h ▸ hxz) (lt_irrefl _)
        simp [charsLe, this, hxz]

/-- `charsLe` is antisymmetric. -/
theorem charsLe_antisymm : ∀ a b : PyStr, charsLe a b = true → charsLe b a = true → a = b := by
  intro a
  induction a with
  | nil =>
    intro b _ hba
    match b with
    | [] => rfl
    | _ :: _ => simp [charsLe] at hba
  | cons x xs ih =>
    intro b hab hba
    match b with
    | [] => simp [charsLe] at hab
    | y :: ys =>
      by_cases hxy : x = y
      · subst hxy
        simp only [charsLe, if_pos rfl] at hab hba
        exact congrArg (x :: ·) (ih ys hab hba)
      · simp only [charsLe, if_neg hxy, decide_eq_true_eq] at hab
        simp only [charsLe, if_neg (Ne.symm hxy), decide_eq_true_eq] at hba
        exact absurd (lt_trans hab hba) (lt_irrefl _)

/-- `charsLt` implies `charsLe`. -/
theorem charsLe_of_charsLt : ∀ a b : PyStr, charsLt a b = true → charsLe a b = true := by
  intro a
  induction a with
  | nil => intro b _; rfl
  | cons x xs ih =>
    intro b hab
    match b with
    | [] => simp [charsLt] at hab
    | y :: ys =>
      by_cases hxy : x = y
      · subst hxy
        simp only [charsLt, if_pos rfl] at hab
        simp only [charsLe, if_pos rfl]
        exact ih ys hab
      · simp only [charsLt, if_neg hxy] at hab
        simp [charsLe, hxy, hab]

/-- `charsLt` is irreflexive. -/
theorem charsLt_irrefl : ∀ a : PyStr, charsLt a a = false := by
  intro a
  induction a with
  | nil => rfl
  | cons x xs ih => simp [charsLt, ih]

/-- A strict comparison together with the reverse lax comparison forces
equality contradiction: `charsLt a b` excludes `charsLe b a`. -/
theorem charsLt_not_le : ∀ a b : PyStr, charsLt a b = true → charsLe b a = false := by
  intro a b hab
  by_contra h
  have hba : charsLe b a = true := by
    cases hcb : charsLe b a with
    | true => rfl
    | false => exact absurd hcb h
  have heq : a = b := charsLe_antisymm a b (charsLe_of_charsLt a b hab) hba
  rw [heq] at hab
  simp [charsLt_irrefl] at hab

/-- Lax comparison plus disequality gives the strict comparison. -/
theorem charsLt_of_le_ne : ∀ a b : PyStr, charsLe a b = true → a ≠ b → charsLt a b = true := by
  intro a
  induction a with
  | nil =>
    intro b _ hne
    match b with
    | [] => exact absurd rfl hne
    | _ :: _ => rfl
  | cons x xs ih =>
    intro b hab hne
    match b with
    | [] => simp [charsLe] at hab
    | y :: ys =>
      by_cases hxy : x = y
      · subst hxy
        simp only [charsLe, if_pos rfl] at hab
        have : xs ≠ ys := fun h => hne (by rw [h])
        simp only [charsLt, if_pos rfl]
        exact ih ys hab this
      · simp only [charsLe, if_neg hxy, decide_eq_true_eq] at hab
        simp [charsLt, hxy, hab]

/-! ## Association-list lemmas -/

/-- A `none` lookup means the key is absent. -/
theorem rawGet_eq_none_iff {β : Type} (m : List (PyStr × β)) (k : PyStr) :
    rawGet m k = none ↔ k ∉ m.map Prod.fst := by
  induction m with
  | nil => exact ⟨fun _ => List.not_mem_nil k, fun _ => rfl⟩
  | cons e rest ih =>
    obtain ⟨k', v⟩ := e
    simp only [List.map_cons, List.mem_cons]
    by_cases h : k' = k
    · subst h
      constructor
      · intro hc; rw [rawGet, if_pos rfl] at hc; exact absurd hc (by simp)
      · intro hc; exact absurd (Or.inl rfl) hc
    · rw [rawGet, if_neg h, ih]
      constructor
      · intro hnk hor
        rcases hor with heq | hin
        · exact h heq.symm
        · exact hnk hin
      · intro hall hin
        exact hall (Or.inr hin)

/-- A successful lookup is a member. -/
theorem rawGet_mem {β : Type} (m : List (PyStr × β)) (k : PyStr) (v : β)
    (h : rawGet m k = some v) : (k, v) ∈ m := by
  induction m with
  | nil => exact absurd h (by rw [rawGet]; simp)
  | cons e rest ih =>
    obtain ⟨k', v'⟩ := e
    by_cases hk : k' = k
    · subst hk
      rw [rawGet, if_pos rfl] at h
      have hv : v' = v := Option.some.inj h
      subst hv
      exact List.mem_cons_self _ _
    · rw [rawGet, if_neg hk] at h
      exact List.mem_cons_of_mem _ (ih h)

/-- With distinct keys, membership determines the lookup. -/
theorem mem_rawGet {β : Type} (m : List (PyStr × β)) (k : PyStr) (v : β)
    (hnd : (m.map Prod.fst).Nodup) (h : (k, v) ∈ m) : rawGet m k = some v := by
  induction m with
  | nil => exact absurd h (List.not_mem_nil _)
  | cons e rest ih =>
    obtain ⟨k', v'⟩ := e
    simp only [List.map_cons, List.nodup_cons] at hnd
    rcases List.mem_cons.mp h with heq | hmem
    · have hk : k = k' := congrArg Prod.fst heq
      have hv : v = v' := congrArg Prod.snd heq
      subst hk; subst hv
      rw [rawGet, if_pos rfl]
    · have hne : k' ≠ k := by
        intro hk
        subst hk
        exact hnd.1 (List.mem_map_of_mem Prod.fst hmem)
      rw [rawGet, if_neg hne]
      exact ih hnd.2 hmem

/-- `alistSet` keeps the key list. -/
theorem map_fst_alistSet {β : Type} (m : List (PyStr × β)) (k : PyStr) (v : β) :
    (alistSet m k v).map Prod.fst = m.map Prod.fst := by
  induction m with
  | nil => rfl
  | cons e rest ih =>
    obtain ⟨k', v'⟩ := e
    by_cases h : k' = k <;> simp [alistSet, h, ih]

/-- Looking up the written key after `alistSet`. -/
theorem rawGet_alistSet_self {β : Type} (m : List (PyStr × β)) (k : PyStr) (v w : β)
    (h : rawGet m k = some w) : rawGet (alistSet m k v) k = some v := by
  induction m with
  | nil => simp [rawGet] at h
  | cons e rest ih =>
    obtain ⟨k', v'⟩ := e
    by_cases hk : k' = k
    · subst hk; simp [alistSet, rawGet]
    · simp only [rawGet, if_neg hk] at h
      simp [alistSet, rawGet, hk, ih h]

/-- Looking up another key after `alistSet`. -/
theorem rawGet_alistSet_ne {β : Type} (m : List (PyStr × β)) (k k' : PyStr) (v : β)
    (h : k' ≠ k) : rawGet (alistSet m k v) k' = rawGet m k' := by
  induction m with
  | nil => rfl
  | cons e rest ih =>
    obtain ⟨k0, v0⟩ := e
    by_cases hk : k0 = k
    · subst hk
      simp [alistSet, rawGet, Ne.symm h]
    · simp [alistSet, rawGet, hk, ih]

/-- Key membership after `setdefaultMerge`. -/
theorem mem_map_fst_setdefaultMerge {β : Type} (m : List (PyStr × β)) (k key : PyStr)
    (f : β → β) (d : β) :
    k ∈ (setdefaultMerge m key f d).map Prod.fst ↔ k ∈ m.map Prod.fst ∨ k = key := by
  induction m with
  | nil =>
    simp only [setdefaultMerge, List.map_cons, List.map_nil, List.mem_singleton,
      List.not_mem_nil, false_or]
  | cons e rest ih =>
    obtain ⟨k', v'⟩ := e
    by_cases h : k' = key
    · subst h
      simp only [setdefaultMerge, eq_self_iff_true, if_true, List.map_cons, List.mem_cons]
      tauto
    · simp only [setdefaultMerge, if_neg h, List.map_cons, List.mem_cons, ih]
      tauto

/-- `setdefaultMerge` preserves distinctness of keys. -/
theorem nodup_setdefaultMerge {β : Type} (m : List (PyStr × β)) (key : PyStr)
    (f : β → β) (d : β) (hnd : (m.map Prod.fst).Nodup) :
    ((setdefaultMerge m key f d).map Prod.fst).Nodup := by
  induction m with
  | nil => simp [setdefaultMerge]
  | cons e rest ih =>
    obtain ⟨k', v'⟩ := e
    simp only [List.map_cons, List.nodup_cons] at hnd
    by_cases h : k' = key
    · subst h
      simp [setdefaultMerge, List.nodup_cons, hnd.1, hnd.2]
    · simp only [setdefaultMerge, if_neg h, List.map_cons, List.nodup_cons]
      refine ⟨?_, ih hnd.2⟩
      intro hmem
      rcases (mem_map_fst_setdefaultMerge rest k' key f d).mp hmem with hin | heq
      · exact hnd.1 hin
      · exact h heq

/-- Lookup of the touched key after `setdefaultMerge`. -/
theorem rawGet_setdefaultMerge_self {β : Type} (m : List (PyStr × β)) (key : PyStr)
    (f : β → β) (d : β) :
    rawGet (setdefaultMerge m key f d) key = some (f ((rawGet m key).getD d)) := by
  induction m with
  | nil => simp [setdefaultMerge, rawGet]
  | cons e rest ih =>
    obtain ⟨k', v'⟩ := e
    by_cases h : k' = key
    · subst h; simp [setdefaultMerge, rawGet]
    · simp [setdefaultMerge, rawGet, h, ih]

/-- Lookup of other keys after `setdefaultMerge`. -/
theorem rawGet_setdefaultMerge_ne {β : Type} (m : List (PyStr × β)) (key k : PyStr)
    (f : β → β) (d : β) (h : k ≠ key) :
    rawGet (setdefaultMerge m key f d) k = rawGet m k := by
  induction m with
  | nil => simp [setdefaultMerge, rawGet, Ne.symm h]
  | cons e rest ih =>
    obtain ⟨k', v'⟩ := e
    by_cases hk : k' = key
    · subst hk; simp [setdefaultMerge, rawGet, Ne.symm h]
    · simp [setdefaultMerge, rawGet, hk, ih]

/-! ## The `_assign_new_ids` loop -/

/-- Keys not in the processed list are untouched by the assignment fold. -/
theorem assignFold_get_not_mem {β : Type} (idGet : β → Option PyStr) (idSet : β → PyStr → β)
    (tag : PyStr) (keys : List PyStr) :
    ∀ (cur : List (PyStr × β)) (c : Nat) (k : PyStr), k ∉ keys →
      rawGet (keys.foldl (assignStep idGet idSet tag) (cur, c)).1 k = rawGet cur k := by
  induction keys with
  | nil => intro cur c k _; rfl
  | cons k' keys ih =>
    intro cur c k hk
    have hne : k ≠ k' := fun h => hk (h ▸ List.mem_cons_self k' keys)
    have hk2 : k ∉ keys := fun h => hk (List.mem_cons_of_mem _ h)
    rw [List.foldl_cons]
    cases hcg : rawGet cur k' with
    | none => simp only [assignStep, hcg]; exact ih cur c k hk2
    | some e' =>
      cases hid' : idGet e' with
      | none =>
        simp only [assignStep, hcg, hid']
        rw [ih _ _ k hk2]
        exact rawGet_alistSet_ne cur k' k _ hne
      | some i => simp only [assignStep, hcg, hid']; exact ih cur c k hk2

/-- The assignment fold never changes an entity that already has an id. -/
theorem assignFold_get_some {β : Type} (idGet : β → Option PyStr) (idSet : β → PyStr → β)
    (tag : PyStr) (keys : List PyStr) :
    ∀ (cur : List (PyStr × β)) (c : Nat) (k : PyStr) (e : β) (i : PyStr),
      rawGet cur k = some e → idGet e = some i →
      rawGet (keys.foldl (assignStep idGet idSet tag) (cur, c)).1 k = some e := by
  induction keys with
  | nil => intro cur c k e i he _; exact he
  | cons k' keys ih =>
    intro cur c k e i he hid
    rw [List.foldl_cons]
    by_cases hk : k' = k
    · subst hk
      simp only [assignStep, he, hid]
      exact ih cur c k' e i he hid
    · cases hcg : rawGet cur k' with
      | none => simp only [assignStep, hcg]; exact ih cur c k e i he hid
      | some e' =>
        cases hid' : idGet e' with
        | none =>
          simp only [assignStep, hcg, hid']
          exact ih _ _ k e i ((rawGet_alistSet_ne cur k' k _ (Ne.symm hk)).trans he) hid
        | some j => simp only [assignStep, hcg, hid']; exact ih cur c k e i he hid

/-- Entities whose id is `None` receive `tag ++ counter`, where the counter
is the starting value plus the number of id-less keys processed before
them. -/
theorem assignFold_get_none {β : Type} (idGet : β → Option PyStr) (idSet : β → PyStr → β)
    (tag : PyStr) (keys : List PyStr) :
    ∀ (cur : List (PyStr × β)) (c : Nat) (k : PyStr) (e : β),
      keys.Nodup → k ∈ keys → rawGet cur k = some e → idGet e = none →
      rawGet (keys.foldl (assignStep idGet idSet tag) (cur, c)).1 k =
        some (idSet e (tag ++ natStr (c +
          ((keys.takeWhile (fun x => decide (x ≠ k))).filter (idIsNoneAt idGet cur)).length))) := by
  induction keys with
  | nil => intro cur c k e _ hk; exact absurd hk (List.not_mem_nil k)
  | cons k' keys ih =>
    intro cur c k e hnd hk he hid
    rw [List.foldl_cons]
    rcases List.nodup_cons.mp hnd with ⟨hk'notin, hndrest⟩
    by_cases hkk : k' = k
    · subst hkk
      simp only [assignStep, he, hid]
      have htw : (k' :: keys).takeWhile (fun x => decide (x ≠ k')) = [] := by
        simp [List.takeWhile_cons]
      rw [htw]
      simp only [List.filter_nil, List.length_nil, Nat.add_zero]
      rw [assignFold_get_not_mem idGet idSet tag keys _ _ k' hk'notin]
      exact rawGet_alistSet_self cur k' _ e he
    · have hkmem : k ∈ keys := (List.mem_cons.mp hk).resolve_left (fun h => hkk h.symm)
      have htw : (k' :: keys).takeWhile (fun x => decide (x ≠ k)) =
          k' :: keys.takeWhile (fun x => decide (x ≠ k)) := by
        simp [List.takeWhile_cons, hkk]
      rw [htw]
      cases hcg : rawGet cur k' with
      | none =>
        simp only [assignStep, hcg]
        have hQ : idIsNoneAt idGet cur k' = false := by simp [idIsNoneAt, hcg]
        rw [List.filter_cons_of_neg (by simp [hQ])]
        exact ih cur c k e hndrest hkmem he hid
      | some e' =>
        cases hid' : idGet e' with
        | some i =>
          simp only [assignStep, hcg, hid']
          have hQ : idIsNoneAt idGet cur k' = false := by simp [idIsNoneAt, hcg, hid']
          rw [List.filter_cons_of_neg (by simp [hQ])]
          exact ih cur c k e hndrest hkmem he hid
        | none =>
          simp only [assignStep, hcg, hid']
          have hQ : idIsNoneAt idGet cur k' = true := by simp [idIsNoneAt, hcg, hid']
          rw [List.filter_cons_of_pos (by simp [hQ])]
          have he2 : rawGet (alistSet cur k' (idSet e' (tag ++ natStr c))) k = some e :=
            (rawGet_alistSet_ne cur k' k _ (Ne.symm hkk)).trans he
          rw [ih _ (c + 1) k e hndrest hkmem he2 hid]
          have hfc : (keys.takeWhile (fun x => decide (x ≠ k))).filter
                (idIsNoneAt idGet (alistSet cur k' (idSet e' (tag ++ natStr c)))) =
              (keys.takeWhile (fun x => decide (x ≠ k))).filter (idIsNoneAt idGet cur) := by
            apply List.filter_congr
            intro x hx
            have hxk : x ∈ keys := (List.takeWhile_sublist _).subset hx
            have hxne : x ≠ k' := fun h => hk'notin (h ▸ hxk)
            simp only [idIsNoneAt, rawGet_alistSet_ne cur k' x _ hxne]
          rw [hfc, List.length_cons]
          exact congrArg (fun n => some (idSet e (tag ++ natStr n))) (by omega)

/-- The assignment fold preserves the key list. -/
theorem assignFold_map_fst {β : Type} (idGet : β → Option PyStr) (idSet : β → PyStr → β)
    (tag : PyStr) (keys : List PyStr) :
    ∀ (cur : List (PyStr × β)) (c : Nat),
      (keys.foldl (assignStep idGet idSet tag) (cur, c)).1.map Prod.fst = cur.map Prod.fst := by
  induction keys with
  | nil => intro cur c; rfl
  | cons k' keys ih =>
    intro cur c
    rw [List.foldl_cons]
    cases hcg : rawGet cur k' with
    | none => simp only [assignStep, hcg]; exact ih cur c
    | some e' =>
      cases hid' : idGet e' with
      | none =>
        simp only [assignStep, hcg, hid']
        rw [ih _ _]
        exact map_fst_alistSet cur k' _
      | some i => simp only [assignStep, hcg, hid']; exact ih cur c

/-- In a sorted duplicate-free key list containing `k`, the prefix strictly
before `k` consists exactly of the keys below `k`. -/
theorem sorted_takeWhile_ne_eq_filter_lt (l : List PyStr) :
    l.Nodup → l.Pairwise (fun a b => charsLe a b = true) → ∀ k, k ∈ l →
      l.takeWhile (fun x => decide (x ≠ k)) = l.filter (fun x => charsLt x k) := by
  induction l with
  | nil => intro _ _ k hk; exact absurd hk (List.not_mem_nil k)
  | cons x rest ih =>
    intro hnd hsort k hk
    rcases List.nodup_cons.mp hnd with ⟨hxnotin, hndrest⟩
    rcases List.pairwise_cons.mp hsort with ⟨hxle, hsortrest⟩
    by_cases hxk : x = k
    · subst hxk
      have h1 : (x :: rest).takeWhile (fun y => decide (y ≠ x)) = [] := by
        simp [List.takeWhile_cons]
      have h2 : (x :: rest).filter (fun y => charsLt y x) = [] := by
        rw [List.filter_cons_of_neg (by simp [charsLt_irrefl])]
        rw [List.filter_eq_nil_iff]
        intro y hy
        simp only [Bool.not_eq_true]
        cases hlt : charsLt y x with
        | false => rfl
        | true => exact absurd (charsLt_not_le y x hlt) (by simp [hxle y hy])
      rw [h1, h2]
    · have hkrest : k ∈ rest := (List.mem_cons.mp hk).resolve_left (fun h => hxk h.symm)
      have hxlt : charsLt x k = true := charsLt_of_le_ne x k (hxle k hkrest) hxk
      rw [List.takeWhile_cons_of_pos (by simp [hxk]), List.filter_cons_of_pos (by simp [hxlt])]
      rw [ih hndrest hsortrest k hkrest]

/-- `_assign_new_ids` on a map with distinct keys: an entity with no id
stored at key `k` receives `tag ++ n`, where `n` is one plus the number of
id-less entities whose key sorts strictly below `k`. -/
theorem assignNewIdsGeneric_get_none {β : Type} (idGet : β → Option PyStr)
    (idSet : β → PyStr → β) (tag : PyStr) (m : List (PyStr × β))
    (hnd : (m.map Prod.fst).Nodup) (k : PyStr) (e : β)
    (he : rawGet m k = some e) (hid : idGet e = none) :
    rawGet (assignNewIdsGeneric idGet idSet tag m) k =
      some (idSet e (tag ++ natStr (1 +
        (m.filter fun en => charsLt en.1 k && (idGet en.2).isNone).length))) := by
  classical
  haveI instTot : IsTotal PyStr (fun a b => charsLe a b = true) := ⟨fun a b => charsLe_total a b⟩
  haveI instTrans : IsTrans PyStr (fun a b => charsLe a b = true) :=
    ⟨fun a b c => charsLe_trans a b c⟩
  set r : PyStr → PyStr → Prop := fun a b => charsLe a b = true with hr
  have hperm : (List.insertionSort r (m.map Prod.fst)).Perm (m.map Prod.fst) :=
    List.perm_insertionSort r (m.map Prod.fst)
  have hndsort : (List.insertionSort r (m.map Prod.fst)).Nodup := hperm.nodup_iff.mpr hnd
  have hsorted : (List.insertionSort r (m.map Prod.fst)).Pairwise r :=
    List.sorted_insertionSort r (m.map Prod.fst)
  have hkmem : k ∈ m.map Prod.fst := by
    by_contra hc
    rw [← rawGet_eq_none_iff] at hc
    rw [hc] at he
    exact absurd he (by simp)
  have hkmemsort : k ∈ List.insertionSort r (m.map Prod.fst) := hperm.mem_iff.mpr hkmem
  unfold assignNewIdsGeneric
  rw [assignFold_get_none idGet idSet tag _ m 1 k e hndsort hkmemsort he hid]
  congr 3
  rw [sorted_takeWhile_ne_eq_filter_lt _ hndsort hsorted k hkmemsort]
  rw [List.filter_filter]
  have hpf : ((List.insertionSort r (m.map Prod.fst)).filter
        (fun x => idIsNoneAt idGet m x && charsLt x k)).Perm
      ((m.map Prod.fst).filter (fun x => idIsNoneAt idGet m x && charsLt x k)) :=
    hperm.filter _
  rw [hpf.length_eq]
  rw [List.filter_map, List.length_map]
  have : m.filter ((fun x => idIsNoneAt idGet m x && charsLt x k) ∘ Prod.fst) =
      m.filter (fun en => charsLt en.1 k && (idGet en.2).isNone) := by
    apply List.filter_congr
    intro en hen
    have : rawGet m en.1 = some en.2 := mem_rawGet m en.1 en.2 hnd hen
    simp only [Function.comp, idIsNoneAt, this]
    exact Bool.and_comm _ _
  rw [this]

/-- `_assign_new_ids` leaves entities that already have an id unchanged. -/
theorem assignNewIdsGeneric_get_some {β : Type} (idGet : β → Option PyStr)
    (idSet : β → PyStr → β) (tag : PyStr) (m : List (PyStr × β)) (k : PyStr) (e : β)
    (i : PyStr) (he : rawGet m k = some e) (hid : idGet e = some i) :
    rawGet (assignNewIdsGeneric idGet idSet tag m) k = some e := by
  unfold assignNewIdsGeneric
  exact assignFold_get_some idGet idSet tag _ m 1 k e i he hid

/-- `_assign_new_ids` creates no keys. -/
theorem assignNewIdsGeneric_get_absent {β : Type} (idGet : β → Option PyStr)
    (idSet : β → PyStr → β) (tag : PyStr) (m : List (PyStr × β)) (k : PyStr)
    (he : rawGet m k = none) : rawGet (assignNewIdsGeneric idGet idSet tag m) k = none := by
  unfold assignNewIdsGeneric
  rw [rawGet_eq_none_iff] at he ⊢
  rw [assignFold_map_fst]
  exact he

/-! ## Ingest-stage invariants -/

/-- Generic fold preservation. -/
theorem foldl_preserves {α σ : Type} (g : σ → α → σ) (P : σ → Prop)
    (h : ∀ s a, P s → P (g s a)) : ∀ (l : List α) (s : σ), P s → P (l.foldl g s) := by
  intro l
  induction l with
  | nil => intro s hs; exact hs
  | cons a l ih => intro s hs; exact ih (g s a) (h s a hs)

/-- A value-wise predicate survives `setdefaultMerge` when the merge
function preserves it and the default satisfies it. -/
theorem setdefaultMerge_pred {β : Type} (P : β → Prop) (m : List (PyStr × β)) (key : PyStr)
    (f : β → β) (d : β) (hf : ∀ v, P v → P (f v)) (hd : P d)
    (hm : ∀ e ∈ m, P e.2) : ∀ e ∈ setdefaultMerge m key f d, P e.2 := by
  induction m with
  | nil =>
    intro e he
    rcases List.mem_singleton.mp he with rfl
    exact hf d hd
  | cons x rest ih =>
    obtain ⟨k', v'⟩ := x
    by_cases h : k' = key
    · subst h
      intro e he
      simp only [setdefaultMerge, eq_self_iff_true, if_true] at he
      rcases List.mem_cons.mp he with rfl | hrest
      · exact hf v' (hm (k', v') (List.mem_cons_self _ _))
      · exact hm e (List.mem_cons_of_mem _ hrest)
    · intro e he
      simp only [setdefaultMerge, if_neg h] at he
      rcases List.mem_cons.mp he with rfl | hrest
      · exact hm (k', v') (List.mem_cons_self _ _)
      · exact ih (fun e' he' => hm e' (List.mem_cons_of_mem _ he')) e hrest

/-- `AggregatedLocation.merge` does not touch the id. -/
theorem merge_loc_id (loc : AggregatedLocation) (p : LocationPayload) :
    (loc.merge p).id = loc.id := rfl

/-- `merge_presentation` does not touch the id. -/
theorem merge_presentation_id (loc : AggregatedLocation) (hk : PyStr)
    (pp : PresentationPayload) : (loc.merge_presentation hk pp).id = loc.id := rfl

/-- `AggregatedHazard.merge` does not touch the id. -/
theorem merge_haz_id (h : AggregatedHazard) (p : HazardPayload) :
    (h.merge p).id = h.id := rfl

/-- The combined ingest invariant: every aggregated entity still has no id
and both key lists are duplicate-free. -/
def IngestInv (st : TransformerState) : Prop :=
  (∀ e ∈ st.locations, e.2.id = none) ∧ (∀ e ∈ st.hazards, e.2.id = none) ∧
    (st.locations.map Prod.fst).Nodup ∧ (st.hazards.map Prod.fst).Nodup

/-- Unfolding `ingestLocationPayload` when the fragment has no name. -/
theorem ingestLocationPayload_none (locs : List (PyStr × AggregatedLocation))
    (lp : LocationPayload) (h : lp.name = none) : ingestLocationPayload locs lp = locs := by
  unfold ingestLocationPayload
  rw [h]

/-- Unfolding `ingestLocationPayload` when the fragment has a name. -/
theorem ingestLocationPayload_some (locs : List (PyStr × AggregatedLocation))
    (lp : LocationPayload) (nm : PyStr) (h : lp.name = some nm) :
    ingestLocationPayload locs lp =
      (if (normalize_name nm).isEmpty then locs
        else setdefaultMerge locs (normalize_name nm) (·.merge lp) { name := pyStrip nm }) := by
  unfold ingestLocationPayload
  rw [h]

/-- Unfolding `ingestPresentationPayload` when the fragment has no location. -/
theorem ingestPresentationPayload_none (locs : List (PyStr × AggregatedLocation))
    (hk : PyStr) (pp : PresentationPayload) (h : pp.location = none) :
    ingestPresentationPayload locs hk pp = locs := by
  unfold ingestPresentationPayload
  rw [h]

/-- Unfolding `ingestPresentationPayload` when the fragment has a location. -/
theorem ingestPresentationPayload_some (locs : List (PyStr × AggregatedLocation))
    (hk : PyStr) (pp : PresentationPayload) (ln : PyStr) (h : pp.location = some ln) :
    ingestPresentationPayload locs hk pp =
      (if (pyStrip ln).isEmpty then locs
        else setdefaultMerge locs (normalize_name ln) (·.merge_presentation hk pp)
          { name := pyStrip ln }) := by
  unfold ingestPresentationPayload
  rw [h]

/-- Unfolding `ingestHazardPayload` when the fragment has no name. -/
theorem ingestHazardPayload_none (st : TransformerState) (hp : HazardPayload)
    (h : hp.name = none) : ingestHazardPayload st hp = st := by
  unfold ingestHazardPayload
  rw [h]

/-- Unfolding `ingestHazardPayload` when the fragment has a name. -/
theorem ingestHazardPayload_some (st : TransformerState) (hp : HazardPayload) (nm : PyStr)
    (h : hp.name = some nm) :
    ingestHazardPayload st hp =
      (if (pyStrip nm).isEmpty then st
        else
          { locations := hp.presentationList.foldl
              (fun locs pp => ingestPresentationPayload locs (normalize_name nm) pp)
              st.locations
            hazards := setdefaultMerge st.hazards (normalize_name nm) (·.merge hp)
              { name := pyStrip nm } }) := by
  unfold ingestHazardPayload
  rw [h]

/-- The location-map invariant used below: id-less values, distinct keys. -/
def LocInv (locs : List (PyStr × AggregatedLocation)) : Prop :=
  (∀ e ∈ locs, e.2.id = none) ∧ (locs.map Prod.fst).Nodup

/-- `ingestLocationPayload` preserves the location-map invariant. -/
theorem ingestLocationPayload_inv (locs : List (PyStr × AggregatedLocation))
    (lp : LocationPayload) (h : LocInv locs) : LocInv (ingestLocationPayload locs lp) := by
  obtain ⟨hid, hnd⟩ := h
  cases hlp : lp.name with
  | none => rw [ingestLocationPayload_none locs lp hlp]; exact ⟨hid, hnd⟩
  | some nm =>
    rw [ingestLocationPayload_some locs lp nm hlp]
    by_cases hk : (normalize_name nm).isEmpty = true
    · rw [if_pos hk]; exact ⟨hid, hnd⟩
    · rw [if_neg hk]
      refine ⟨setdefaultMerge_pred (fun v : AggregatedLocation => v.id = none) _ _ _ _ ?_ rfl hid,
        nodup_setdefaultMerge _ _ _ _ hnd⟩
      intro v hv
      rw [merge_loc_id]; exact hv

/-- `ingestPresentationPayload` preserves the location-map invariant. -/
theorem ingestPresentationPayload_inv (locs : List (PyStr × AggregatedLocation))
    (hk : PyStr) (pp : PresentationPayload) (h : LocInv locs) :
    LocInv (ingestPresentationPayload locs hk pp) := by
  obtain ⟨hid, hnd⟩ := h
  cases hpp : pp.location with
  | none => rw [ingestPresentationPayload_none locs hk pp hpp]; exact ⟨hid, hnd⟩
  | some ln =>
    rw [ingestPresentationPayload_some locs hk pp ln hpp]
    by_cases hln : (pyStrip ln).isEmpty = true
    · rw [if_pos hln]; exact ⟨hid, hnd⟩
    · rw [if_neg hln]
      refine ⟨setdefaultMerge_pred (fun v : AggregatedLocation => v.id = none) _ _ _ _ ?_ rfl hid,
        nodup_setdefaultMerge _ _ _ _ hnd⟩
      intro v hv
      rw [merge_presentation_id]; exact hv

/-- One hazard fragment preserves the ingest invariant. -/
theorem ingestHazardPayload_inv (st : TransformerState) (hp : HazardPayload)
    (h : IngestInv st) : IngestInv (ingestHazardPayload st hp) := by
  obtain ⟨hlid, hhid, hlnd, hhnd⟩ := h
  cases hhp : hp.name with
  | none => rw [ingestHazardPayload_none st hp hhp]; exact ⟨hlid, hhid, hlnd, hhnd⟩
  | some nm =>
    rw [ingestHazardPayload_some st hp nm hhp]
    by_cases hnm : (pyStrip nm).isEmpty = true
    · rw [if_pos hnm]; exact ⟨hlid, hhid, hlnd, hhnd⟩
    · rw [if_neg hnm]
      have hfold : LocInv (hp.presentationList.foldl
          (fun locs pp => ingestPresentationPayload locs (normalize_name nm) pp)
          st.locations) :=
        foldl_preserves _ LocInv
          (fun locs pp hl => ingestPresentationPayload_inv locs (normalize_name nm) pp hl)
          hp.presentationList st.locations ⟨hlid, hlnd⟩
      refine ⟨hfold.1, ?_, hfold.2, nodup_setdefaultMerge _ _ _ _ hhnd⟩
      refine setdefaultMerge_pred (fun v : AggregatedHazard => v.id = none) _ _ _ _ ?_ rfl hhid
      intro v hv
      rw [merge_haz_id]; exact hv

/-- One document preserves the ingest invariant. -/
theorem ingestDocument_inv (st : TransformerState) (doc : Document) (h : IngestInv st) :
    IngestInv (ingestDocument st doc) := by
  obtain ⟨hlid, hhid, hlnd, hhnd⟩ := h
  unfold ingestDocument
  refine foldl_preserves ingestHazardPayload IngestInv
    (fun st' hp hinv => ingestHazardPayload_inv st' hp hinv) doc.hazards _ ?_
  have hfold : LocInv (doc.locations.foldl ingestLocationPayload st.locations) :=
    foldl_preserves ingestLocationPayload LocInv
      (fun locs lp hl => ingestLocationPayload_inv locs lp hl)
      doc.locations st.locations ⟨hlid, hlnd⟩
  exact ⟨hfold.1, hhid, hfold.2, hhnd⟩

/-- The ingest stage produces id-less entities with duplicate-free keys. -/
theorem ingestDocuments_inv (docs : List Document) : IngestInv (ingestDocuments docs) := by
  unfold ingestDocuments
  refine foldl_preserves ingestDocument IngestInv
    (fun st doc h => ingestDocument_inv st doc h) docs _ ?_
  refine ⟨?_, ?_, ?_, ?_⟩ <;> simp [TransformerState.locations, TransformerState.hazards]

/-- Generic membership accumulation along a fold. -/
theorem foldl_mem_iff {α σ : Type} (g : σ → α → σ) (K : σ → PyStr → Prop)
    (A : α → PyStr → Prop) (hstep : ∀ s a k, K (g s a) k ↔ K s k ∨ A a k) :
    ∀ (l : List α) (s : σ) (k : PyStr), K (l.foldl g s) k ↔ K s k ∨ ∃ a ∈ l, A a k := by
  intro l
  induction l with
  | nil =>
    intro s k
    rw [List.foldl_nil]
    constructor
    · exact Or.inl
    · rintro (h | ⟨a, ha, _⟩)
      · exact h
      · exact absurd ha (List.not_mem_nil a)
  | cons a l ih =>
    intro s k
    rw [List.foldl_cons, ih (g s a) k, hstep s a k]
    constructor
    · rintro ((hK | hA) | ⟨a', ha', hA'⟩)
      · exact Or.inl hK
      · exact Or.inr ⟨a, List.mem_cons_self _ _, hA⟩
      · exact Or.inr ⟨a', List.mem_cons_of_mem _ ha', hA'⟩
    · rintro (hK | ⟨a', ha', hA'⟩)
      · exact Or.inl (Or.inl hK)
      · rcases List.mem_cons.mp ha' with rfl | hmem
        · exact Or.inl (Or.inr hA')
        · exact Or.inr ⟨a', hmem, hA'⟩

/-- Key creation by one location fragment. -/
theorem mem_keys_ingestLocationPayload (locs : List (PyStr × AggregatedLocation))
    (lp : LocationPayload) (k : PyStr) :
    k ∈ (ingestLocationPayload locs lp).map Prod.fst ↔
      k ∈ locs.map Prod.fst ∨ ∃ nm, lp.name = some nm ∧
        normalize_name nm = k ∧ (normalize_name nm).isEmpty = false := by
  cases hlp : lp.name with
  | none =>
    rw [ingestLocationPayload_none locs lp hlp]
    constructor
    · exact Or.inl
    · rintro (h | ⟨nm, hnm, _⟩)
      · exact h
      · cases hnm
  | some nm =>
    rw [ingestLocationPayload_some locs lp nm hlp]
    by_cases hk : (normalize_name nm).isEmpty = true
    · rw [if_pos hk]
      simp only [hlp, Option.some.injEq]
      constructor
      · exact Or.inl
      · rintro (h | ⟨nm', rfl, _, hfalse⟩)
        · exact h
        · rw [hk] at hfalse; cases hfalse
    · rw [if_neg hk]
      rw [mem_map_fst_setdefaultMerge]
      simp only [hlp, Option.some.injEq]
      constructor
      · rintro (h | rfl)
        · exact Or.inl h
        · exact Or.inr ⟨nm, rfl, rfl, by simpa using hk⟩
      · rintro (h | ⟨nm', rfl, rfl, _⟩)
        · exact Or.inl h
        · exact Or.inr rfl

/-- Key creation by one presentation fragment. -/
theorem mem_keys_ingestPresentationPayload (locs : List (PyStr × AggregatedLocation))
    (hk0 : PyStr) (pp : PresentationPayload) (k : PyStr) :
    k ∈ (ingestPresentationPayload locs hk0 pp).map Prod.fst ↔
      k ∈ locs.map Prod.fst ∨ ∃ ln, pp.location = some ln ∧
        (pyStrip ln).isEmpty = false ∧ normalize_name ln = k := by
  cases hpp : pp.location with
  | none =>
    rw [ingestPresentationPayload_none locs hk0 pp hpp]
    constructor
    · exact Or.inl
    · rintro (h | ⟨ln, hln, _⟩)
      · exact h
      · cases hln
  | some ln =>
    rw [ingestPresentationPayload_some locs hk0 pp ln hpp]
    by_cases hln : (pyStrip ln).isEmpty = true
    · rw [if_pos hln]
      simp only [hpp, Option.some.injEq]
      constructor
      · exact Or.inl
      · rintro (h | ⟨ln', rfl, hfalse, _⟩)
        · exact h
        · rw [hln] at hfalse; cases hfalse
    · rw [if_neg hln]
      rw [mem_map_fst_setdefaultMerge]
      simp only [hpp, Option.some.injEq]
      constructor
      · rintro (h | rfl)
        · exact Or.inl h
        · exact Or.inr ⟨ln, rfl, by simpa using hln, rfl⟩
      · rintro (h | ⟨ln', rfl, _, rfl⟩)
        · exact Or.inl h
        · exact Or.inr rfl

/-- Location-key creation by one hazard fragment. -/
theorem mem_loc_keys_ingestHazardPayload (st : TransformerState) (hp : HazardPayload)
    (k : PyStr) :
    k ∈ (ingestHazardPayload st hp).locations.map Prod.fst ↔
      k ∈ st.locations.map Prod.fst ∨ ∃ nm, hp.name = some nm ∧
        (pyStrip nm).isEmpty = false ∧ ∃ pp ∈ hp.presentationList, ∃ ln,
          pp.location = some ln ∧ (pyStrip ln).isEmpty = false ∧ normalize_name ln = k := by
  cases hhp : hp.name with
  | none =>
    rw [ingestHazardPayload_none st hp hhp]
    constructor
    · exact Or.inl
    · rintro (h | ⟨nm, hnm, _⟩)
      · exact h
      · cases hnm
  | some nm =>
    rw [ingestHazardPayload_some st hp nm hhp]
    by_cases hnm : (pyStrip nm).isEmpty = true
    · rw [if_pos hnm]
      simp only [hhp, Option.some.injEq]
      constructor
      · exact Or.inl
      · rintro (h | ⟨nm', rfl, hfalse, _⟩)
        · exact h
        · rw [hnm] at hfalse; cases hfalse
    · rw [if_neg hnm]
      have := foldl_mem_iff
        (fun locs pp => ingestPresentationPayload locs (normalize_name nm) pp)
        (fun locs k => k ∈ locs.map Prod.fst)
        (fun pp k => ∃ ln, pp.location = some ln ∧
          (pyStrip ln).isEmpty = false ∧ normalize_name ln = k)
        (fun locs pp k => mem_keys_ingestPresentationPayload locs (normalize_name nm) pp k)
        hp.presentationList st.locations k
      rw [this]
      simp only [hhp, Option.some.injEq]
      constructor
      · rintro (h | ⟨pp, hpp, hA⟩)
        · exact Or.inl h
        · exact Or.inr ⟨nm, rfl, by simpa using hnm, pp, hpp, hA⟩
      · rintro (h | ⟨nm', rfl, _, pp, hpp, hA⟩)
        · exact Or.inl h
        · exact Or.inr ⟨pp, hpp, hA⟩

/-- Hazard-key creation by one hazard fragment. -/
theorem mem_haz_keys_ingestHazardPayload (st : TransformerState) (hp : HazardPayload)
    (k : PyStr) :
    k ∈ (ingestHazardPayload st hp).hazards.map Prod.fst ↔
      k ∈ st.hazards.map Prod.fst ∨ ∃ nm, hp.name = some nm ∧
        (pyStrip nm).isEmpty = false ∧ normalize_name nm = k := by
  cases hhp : hp.name with
  | none =>
    rw [ingestHazardPayload_none st hp hhp]
    constructor
    · exact Or.inl
    · rintro (h | ⟨nm, hnm, _⟩)
      · exact h
      · cases hnm
  | some nm =>
    rw [ingestHazardPayload_some st hp nm hhp]
    by_cases hnm : (pyStrip nm).isEmpty = true
    · rw [if_pos hnm]
      simp only [hhp, Option.some.injEq]
      constructor
      · exact Or.inl
      · rintro (h | ⟨nm', rfl, hfalse, _⟩)
        · exact h
        · rw [hnm] at hfalse; cases hfalse
    · rw [if_neg hnm]
      rw [mem_map_fst_setdefaultMerge]
      simp only [hhp, Option.some.injEq]
      constructor
      · rintro (h | rfl)
        · exact Or.inl h
        · exact Or.inr ⟨nm, rfl, by simpa using hnm, rfl⟩
      · rintro (h | ⟨nm', rfl, _, rfl⟩)
        · exact Or.inl h
        · exact Or.inr rfl

/-- Location keys after ingesting one document. -/
theorem mem_loc_keys_ingestDocument (st : TransformerState) (doc : Document) (k : PyStr) :
    k ∈ (ingestDocument st doc).locations.map Prod.fst ↔
      k ∈ st.locations.map Prod.fst ∨ mentionsLocationKey doc k := by
  unfold ingestDocument
  rw [foldl_mem_iff ingestHazardPayload
    (fun st' k => k ∈ st'.locations.map Prod.fst)
    (fun hp k => ∃ nm, hp.name = some nm ∧ (pyStrip nm).isEmpty = false ∧
      ∃ pp ∈ hp.presentationList, ∃ ln, pp.location = some ln ∧
        (pyStrip ln).isEmpty = false ∧ normalize_name ln = k)
    (fun st' hp k => mem_loc_keys_ingestHazardPayload st' hp k) doc.hazards _ k]
  rw [foldl_mem_iff ingestLocationPayload
    (fun locs k => k ∈ locs.map Prod.fst)
    (fun lp k => ∃ nm, lp.name = some nm ∧ normalize_name nm = k ∧
      (normalize_name nm).isEmpty = false)
    (fun locs lp k => mem_keys_ingestLocationPayload locs lp k) doc.locations _ k]
  unfold mentionsLocationKey
  constructor
  · rintro ((h | ⟨lp, hlp, hA⟩) | ⟨hp, hhp, hA⟩)
    · exact Or.inl h
    · exact Or.inr (Or.inl ⟨lp, hlp, hA⟩)
    · exact Or.inr (Or.inr ⟨hp, hhp, hA⟩)
  · rintro (h | (⟨lp, hlp, hA⟩ | ⟨hp, hhp, hA⟩))
    · exact Or.inl (Or.inl h)
    · exact Or.inl (Or.inr ⟨lp, hlp, hA⟩)
    · exact Or.inr ⟨hp, hhp, hA⟩

/-- Hazard keys after ingesting one document. -/
theorem mem_haz_keys_ingestDocument (st : TransformerState) (doc : Document) (k : PyStr) :
    k ∈ (ingestDocument st doc).hazards.map Prod.fst ↔
      k ∈ st.hazards.map Prod.fst ∨ mentionsHazardKey doc k := by
  unfold ingestDocument
  rw [foldl_mem_iff ingestHazardPayload
    (fun st' k => k ∈ st'.hazards.map Prod.fst)
    (fun hp k => ∃ nm, hp.name = some nm ∧ (pyStrip nm).isEmpty = false ∧
      normalize_name nm = k)
    (fun st' hp k => mem_haz_keys_ingestHazardPayload st' hp k) doc.hazards _ k]
  unfold mentionsHazardKey
  constructor
  · rintro (h | ⟨hp, hhp, hA⟩)
    · exact Or.inl h
    · exact Or.inr ⟨hp, hhp, hA⟩
  · rintro (h | ⟨hp, hhp, hA⟩)
    · exact Or.inl h
    · exact Or.inr ⟨hp, hhp, hA⟩

/-- Location keys after the whole ingest stage. -/
theorem mem_loc_keys_ingestDocuments (docs : List Document) (k : PyStr) :
    k ∈ (ingestDocuments docs).locations.map Prod.fst ↔
      ∃ doc ∈ docs, mentionsLocationKey doc k := by
  unfold ingestDocuments
  rw [foldl_mem_iff ingestDocument
    (fun st k => k ∈ st.locations.map Prod.fst) mentionsLocationKey
    (fun st doc k => mem_loc_keys_ingestDocument st doc k) docs _ k]
  simp

/-- Hazard keys after the whole ingest stage. -/
theorem mem_haz_keys_ingestDocuments (docs : List Document) (k : PyStr) :
    k ∈ (ingestDocuments docs).hazards.map Prod.fst ↔
      ∃ doc ∈ docs, mentionsHazardKey doc k := by
  unfold ingestDocuments
  rw [foldl_mem_iff ingestDocument
    (fun st k => k ∈ st.hazards.map Prod.fst) mentionsHazardKey
    (fun st doc k => mem_haz_keys_ingestDocument st doc k) docs _ k]
  simp

/-- Two duplicate-free lists with the same members are permutations. -/
theorem perm_of_nodup_mem_iff {l₁ l₂ : List PyStr} (h₁ : l₁.Nodup) (h₂ : l₂.Nodup)
    (h : ∀ x, x ∈ l₁ ↔ x ∈ l₂) : l₁.Perm l₂ :=
  (h₁.subperm fun x hx => (h x).mp hx).antisymm (h₂.subperm fun x hx => (h x).mpr hx)

/-- When every entity is id-less, the assignment counter only counts keys. -/
theorem filter_none_count {β : Type} (idGet : β → Option PyStr) (m : List (PyStr × β))
    (hall : ∀ e ∈ m, idGet e.2 = none) (k : PyStr) :
    (m.filter fun en => charsLt en.1 k && (idGet en.2).isNone).length =
      ((m.map Prod.fst).filter fun x => charsLt x k).length := by
  rw [List.filter_map, List.length_map]
  congr 1
  apply List.filter_congr
  intro en hen
  rw [hall en hen]
  simp

/-- C2: after the Assign stage (no catalog client, no enrichment client),
every location (resp. hazard) whose id was still `None` after ingest holds
`new-location-<n>` (resp. `new-hazard-<n>`), where `n` is one plus the
number of id-less entities of the same kind whose normalized name sorts
strictly below its own — a 1-based counter walked in ascending
normalized-name order with independent counters per kind. Consequently two
pipeline runs over permuted document sets assign identical synthetic ids
to every name: the ids do not depend on entity creation order. -/
theorem C2_assign_new_ids_deterministic (docs docs' : List Document)
    (hperm : docs.Perm docs') :
    (∀ k loc, rawGet (ingestDocuments docs).locations k = some loc → loc.id = none →
      rawGet (pipelineState none none docs).locations k =
        some { loc with id := some ("new-location-".toList ++ natStr (1 +
          ((ingestDocuments docs).locations.filter
            fun en => charsLt en.1 k && en.2.id.isNone).length)) })
    ∧ (∀ k hz, rawGet (ingestDocuments docs).hazards k = some hz → hz.id = none →
      rawGet (pipelineState none none docs).hazards k =
        some { hz with id := some ("new-hazard-".toList ++ natStr (1 +
          ((ingestDocuments docs).hazards.filter
            fun en => charsLt en.1 k && en.2.id.isNone).length)) })
    ∧ (∀ k, ((rawGet (pipelineState none none docs).locations k).map fun l => l.id) =
        ((rawGet (pipelineState none none docs').locations k).map fun l => l.id))
    ∧ (∀ k, ((rawGet (pipelineState none none docs).hazards k).map fun hz => hz.id) =
        ((rawGet (pipelineState none none docs').hazards k).map fun hz => hz.id)) := by
  obtain ⟨hlid, hhid, hlnd, hhnd⟩ := ingestDocuments_inv docs
  obtain ⟨hlid', hhid', hlnd', hhnd'⟩ := ingestDocuments_inv docs'
  have hbase : pipelineState none none docs = assignNewIds (ingestDocuments docs) := rfl
  have hbase' : pipelineState none none docs' = assignNewIds (ingestDocuments docs') := rfl
  have hlocs : ∀ k, k ∈ (ingestDocuments docs).locations.map Prod.fst ↔
      k ∈ (ingestDocuments docs').locations.map Prod.fst := by
    intro k
    rw [mem_loc_keys_ingestDocuments, mem_loc_keys_ingestDocuments]
    exact ⟨fun ⟨d, hd, hP⟩ => ⟨d, hperm.mem_iff.mp hd, hP⟩,
      fun ⟨d, hd, hP⟩ => ⟨d, hperm.mem_iff.mpr hd, hP⟩⟩
  have hhazs : ∀ k, k ∈ (ingestDocuments docs).hazards.map Prod.fst ↔
      k ∈ (ingestDocuments docs').hazards.map Prod.fst := by
    intro k
    rw [mem_haz_keys_ingestDocuments, mem_haz_keys_ingestDocuments]
    exact ⟨fun ⟨d, hd, hP⟩ => ⟨d, hperm.mem_iff.mp hd, hP⟩,
      fun ⟨d, hd, hP⟩ => ⟨d, hperm.mem_iff.mpr hd, hP⟩⟩
  refine ⟨?_, ?_, ?_, ?_⟩
  · intro k loc he hid
    rw [hbase]
    exact assignNewIdsGeneric_get_none (fun l => l.id) (fun l i => { l with id := some i })
      "new-location-".toList (ingestDocuments docs).locations hlnd k loc he hid
  · intro k hz he hid
    rw [hbase]
    exact assignNewIdsGeneric_get_none (fun hh => hh.id) (fun hh i => { hh with id := some i })
      "new-hazard-".toList (ingestDocuments docs).hazards hhnd k hz he hid
  · intro k
    rw [hbase, hbase']
    cases hcg : rawGet (ingestDocuments docs).locations k with
    | none =>
      have hk : k ∉ (ingestDocuments docs).locations.map Prod.fst :=
        (rawGet_eq_none_iff _ k).mp hcg
      have hk' : k ∉ (ingestDocuments docs').locations.map Prod.fst :=
        fun hc => hk ((hlocs k).mpr hc)
      have hcg' : rawGet (ingestDocuments docs').locations k = none :=
        (rawGet_eq_none_iff _ k).mpr hk'
      rw [show (assignNewIds (ingestDocuments docs)).locations =
          assignNewIdsGeneric (fun l => l.id) (fun l i => { l with id := some i })
            "new-location-".toList (ingestDocuments docs).locations from rfl]
      rw [show (assignNewIds (ingestDocuments docs')).locations =
          assignNewIdsGeneric (fun l => l.id) (fun l i => { l with id := some i })
            "new-location-".toList (ingestDocuments docs').locations from rfl]
      rw [assignNewIdsGeneric_get_absent _ _ _ _ k hcg,
        assignNewIdsGeneric_get_absent _ _ _ _ k hcg']
    | some loc =>
      have hkmem : k ∈ (ingestDocuments docs').locations.map Prod.fst := by
        refine (hlocs k).mp ?_
        by_contra hc
        rw [← rawGet_eq_none_iff] at hc
        rw [hc] at hcg
        cases hcg
      obtain ⟨loc', hcg'⟩ : ∃ loc', rawGet (ingestDocuments docs').locations k = some loc' := by
        cases hcg2 : rawGet (ingestDocuments docs').locations k with
        | none => exact absurd hkmem ((rawGet_eq_none_iff _ k).mp hcg2)
        | some l0 => exact ⟨l0, rfl⟩
      have hid1 : loc.id = none := hlid (k, loc) (rawGet_mem _ k loc hcg)
      have hid2 : loc'.id = none := hlid' (k, loc') (rawGet_mem _ k loc' hcg')
      rw [show (assignNewIds (ingestDocuments docs)).locations =
          assignNewIdsGeneric (fun l => l.id) (fun l i => { l with id := some i })
            "new-location-".toList (ingestDocuments docs).locations from rfl]
      rw [show (assignNewIds (ingestDocuments docs')).locations =
          assignNewIdsGeneric (fun l => l.id) (fun l i => { l with id := some i })
            "new-location-".toList (ingestDocuments docs').locations from rfl]
      rw [assignNewIdsGeneric_get_none _ _ _ _ hlnd k loc hcg hid1,
        assignNewIdsGeneric_get_none _ _ _ _ hlnd' k loc' hcg' hid2]
      have hcnt : ((ingestDocuments docs).locations.filter
            fun en => charsLt en.1 k && en.2.id.isNone).length =
          ((ingestDocuments docs').locations.filter
            fun en => charsLt en.1 k && en.2.id.isNone).length := by
        rw [filter_none_count (fun l => l.id) _ (fun e he => hlid e he) k,
          filter_none_count (fun l => l.id) _ (fun e he => hlid' e he) k]
        exact ((perm_of_nodup_mem_iff hlnd hlnd' hlocs).filter _).length_eq
      rw [Option.map_some', Option.map_some', hcnt]
  · intro k
    rw [hbase, hbase']
    cases hcg : rawGet (ingestDocuments docs).hazards k with
    | none =>
      have hk : k ∉ (ingestDocuments docs).hazards.map Prod.fst :=
        (rawGet_eq_none_iff _ k).mp hcg
      have hk' : k ∉ (ingestDocuments docs').hazards.map Prod.fst :=
        fun hc => hk ((hhazs k).mpr hc)
      have hcg' : rawGet (ingestDocuments docs').hazards k = none :=
        (rawGet_eq_none_iff _ k).mpr hk'
      rw [show (assignNewIds (ingestDocuments docs)).hazards =
          assignNewIdsGeneric (fun hh => hh.id) (fun hh i => { hh with id := some i })
            "new-hazard-".toList (ingestDocuments docs).hazards from rfl]
      rw [show (assignNewIds (ingestDocuments docs')).hazards =
          assignNewIdsGeneric (fun hh => hh.id) (fun hh i => { hh with id := some i })
            "new-hazard-".toList (ingestDocuments docs').hazards from rfl]
      rw [assignNewIdsGeneric_get_absent _ _ _ _ k hcg,
        assignNewIdsGeneric_get_absent _ _ _ _ k hcg']
    | some hz =>
      have hkmem : k ∈ (ingestDocuments docs').hazards.map Prod.fst := by
        refine (hhazs k).mp ?_
        by_contra hc
        rw [← rawGet_eq_none_iff] at hc
        rw [hc] at hcg
        cases hcg
      obtain ⟨hz', hcg'⟩ : ∃ hz', rawGet (ingestDocuments docs').hazards k = some hz' := by
        cases hcg2 : rawGet (ingestDocuments docs').hazards k with
        | none => exact absurd hkmem ((rawGet_eq_none_iff _ k).mp hcg2)
        | some h0 => exact ⟨h0, rfl⟩
      have hid1 : hz.id = none := hhid (k, hz) (rawGet_mem _ k hz hcg)
      have hid2 : hz'.id = none := hhid' (k, hz') (rawGet_mem _ k hz' hcg')
      rw [show (assignNewIds (ingestDocuments docs)).hazards =
          assignNewIdsGeneric (fun hh => hh.id) (fun hh i => { hh with id := some i })
            "new-hazard-".toList (ingestDocuments docs).hazards from rfl]
      rw [show (assignNewIds (ingestDocuments docs')).hazards =
          assignNewIdsGeneric (fun hh => hh.id) (fun hh i => { hh with id := some i })
            "new-hazard-".toList (ingestDocuments docs').hazards from rfl]
      rw [assignNewIdsGeneric_get_none _ _ _ _ hhnd k hz hcg hid1,
        assignNewIdsGeneric_get_none _ _ _ _ hhnd' k hz' hcg' hid2]
      have hcnt : ((ingestDocuments docs).hazards.filter
            fun en => charsLt en.1 k && en.2.id.isNone).length =
          ((ingestDocuments docs').hazards.filter
            fun en => charsLt en.1 k && en.2.id.isNone).length := by
        rw [filter_none_count (fun hh => hh.id) _ (fun e he => hhid e he) k,
          filter_none_count (fun hh => hh.id) _ (fun e he => hhid' e he) k]
        exact ((perm_of_nodup_mem_iff hhnd hhnd' hhazs).filter _).length_eq
      rw [Option.map_some', Option.map_some', hcnt]

/-- Witness for C2 at two concrete documents ingested in both orders: the
hazard "Avalanche" receives `new-hazard-1` (it sorts before "flooding"),
the location "Sunset Region" receives `new-location-2` (it sorts after
"rocky park"), and the assigned ids agree between the two run orders. -/
theorem C2_assign_new_ids_deterministic_witness :
    ([fixtureDoc1, fixtureDoc2].Perm [fixtureDoc2, fixtureDoc1])
    ∧ ((rawGet (pipelineState none none [fixtureDoc1, fixtureDoc2]).hazards
          "avalanche".toList).map (fun hz => hz.id) =
        (rawGet (pipelineState none none [fixtureDoc2, fixtureDoc1]).hazards
          "avalanche".toList).map (fun hz => hz.id))
    ∧ ((rawGet (pipelineState none none [fixtureDoc1, fixtureDoc2]).hazards
          "avalanche".toList).map (fun hz => hz.id) = some (some "new-hazard-1".toList))
    ∧ ((rawGet (pipelineState none none [fixtureDoc2, fixtureDoc1]).locations
          "sunset region".toList).map (fun l => l.id) =
        some (some "new-location-2".toList)) :=
  ⟨List.Perm.swap _ _ _,
   (C2_assign_new_ids_deterministic [fixtureDoc1, fixtureDoc2] [fixtureDoc2, fixtureDoc1]
     (List.Perm.swap _ _ _)).2.2.2 "avalanche".toList,
   by decide, by decide⟩

/-! ## API boundary normalization: C5 and C6 -/

/-- Successful coercion preserves the number of points. -/
theorem coerceAll_ok_length : ∀ (xs : List Raw) (ps : List Point),
    coerceAll xs = .ok ps → ps.length = xs.length := by
  intro xs
  induction xs with
  | nil =>
    intro ps h
    simp only [coerceAll] at h
    cases h
    rfl
  | cons p rest ih =>
    intro ps h
    simp only [coerceAll] at h
    cases hc : coerce_point p with
    | error e => rw [hc] at h; cases h
    | ok pt =>
      rw [hc] at h
      cases hr : coerceAll rest with
      | error e => rw [hr] at h; cases h
      | ok pts =>
        rw [hr] at h
        cases h
        simp [ih pts hr]

/-- C5 counterexample: contrary to the claim, `normalize_boundary` does
not fail on an empty list — it returns the empty boundary set. -/
theorem C5_empty_list_counterexample :
    normalize_boundary (Raw.arr []) = Except.ok [] := rfl

/-- C5 (amended): `normalize_boundary` fails when a flat point-like
polygon has fewer than three points after coercion (e.g. a 2-point
polygon), when a dict input's `coordinates` entry is missing or falsy, and
when a dict input with a truthy `coordinates` list has a `type` that is
neither `Polygon` nor `MultiPolygon` (an unrecognized GeoJSON-like shape);
the only correction to the claim is that an empty input does not fail: an
empty list (or `None`) yields the empty boundary set. -/
theorem C5_normalize_boundary_failures (fields : List (PyStr × Raw)) (c : Raw)
    (ps : List Raw) :
    (rawGet fields "coordinates".toList = none →
      normalize_boundary (.dict fields) = .error "Boundary coordinate list is empty")
    ∧ (rawGet fields "coordinates".toList = some c → c.falsy = true →
      normalize_boundary (.dict fields) = .error "Boundary coordinate list is empty")
    ∧ (ps ≠ [] → ps.all looks_like_point = true → ps.length < 3 →
      ∃ msg, normalize_boundary (.arr ps) = .error msg)
    ∧ (rawGet fields "coordinates".toList = some c → c.falsy = false →
      (rawGetD fields "type".toList).isStrEq "Polygon".toList = false →
      (rawGetD fields "type".toList).isStrEq "MultiPolygon".toList = false →
      normalize_boundary (.dict fields) = .error "Unrecognised boundary dict structure")
    ∧ normalize_boundary .null = .ok []
    ∧ normalize_boundary (.arr []) = .ok [] := by
  refine ⟨?_, ?_, ?_, ?_, rfl, rfl⟩
  · intro h
    simp only [normalize_boundary, h]
  · intro h hf
    simp only [normalize_boundary, h, hf, if_true]
  · intro hne hall hlen
    have hemp : ps.isEmpty = false := by
      cases ps with
      | nil => exact absurd rfl hne
      | cons a l => rfl
    simp only [normalize_boundary, hemp, Bool.false_eq_true, if_false, hall, if_true]
    cases hca : coerceAll ps with
    | error e =>
      refine ⟨e, ?_⟩
      have hap : add_polygon ps = .error e := by simp [add_polygon, hca]
      rw [hap]
      rfl
    | ok pts =>
      refine ⟨"Boundary polygons require at least three points", ?_⟩
      have hlt : pts.length < 3 := by rw [coerceAll_ok_length ps pts hca]; exact hlen
      have hap : add_polygon ps = .error "Boundary polygons require at least three points" := by
        simp [add_polygon, hca, hlt]
      rw [hap]
      rfl
  · intro h hf hp hm
    simp only [normalize_boundary, h, hf, Bool.false_eq_true, if_false, hp, hm]

/-- Witness for C5 at concrete inputs: a dict with empty coordinates, a
two-point polygon, and a dict of unrecognized type all fail, while the
empty list yields the empty boundary set. -/
theorem C5_normalize_boundary_failures_witness :
    (rawGet [("coordinates".toList, Raw.arr [])] "coordinates".toList = some (Raw.arr []) ∧
      (Raw.arr []).falsy = true)
    ∧ ([Raw.arr [Raw.num 0, Raw.num 0], Raw.arr [Raw.num 0, Raw.num 1]] ≠ ([] : List Raw) ∧
      ([Raw.arr [Raw.num 0, Raw.num 0], Raw.arr [Raw.num 0, Raw.num 1]].all looks_like_point
        = true))
    ∧ normalize_boundary
        (.dict [("coordinates".toList, Raw.arr [])]) = .error "Boundary coordinate list is empty"
    ∧ (∃ msg, normalize_boundary
        (.arr [Raw.arr [Raw.num 0, Raw.num 0], Raw.arr [Raw.num 0, Raw.num 1]]) = .error msg)
    ∧ normalize_boundary
        (.dict [("type".toList, Raw.str "Circle".toList),
          ("coordinates".toList, Raw.arr [Raw.num 1])]) =
        .error "Unrecognised boundary dict structure" := by
  refine ⟨⟨rfl, rfl⟩, ⟨List.cons_ne_nil _ _, by decide⟩, ?_, ?_, ?_⟩
  · exact (C5_normalize_boundary_failures [("coordinates".toList, Raw.arr [])] (Raw.arr [])
      []).2.1 rfl rfl
  · exact (C5_normalize_boundary_failures [] Raw.null
      [Raw.arr [Raw.num 0, Raw.num 0], Raw.arr [Raw.num 0, Raw.num 1]]).2.2.1
      (List.cons_ne_nil _ _) (by decide) (by decide)
  · exact (C5_normalize_boundary_failures
      [("type".toList, Raw.str "Circle".toList), ("coordinates".toList, Raw.arr [Raw.num 1])]
      (Raw.arr [Raw.num 1]) []).2.2.2.1 rfl rfl (by decide) (by decide)

/-- C6: a simple polygon of at least three coercible point-like values
normalizes to the same single-polygon boundary set from all three
encodings: the flat point list, the single-element nested list, and a
GeoJSON-like dict of type `Polygon` carrying the point list as the first
ring of its `coordinates`. -/
theorem C6_normalize_boundary_encodings (rawPts : List Raw) (ps : List Point)
    (hco : coerceAll rawPts = .ok ps) (hlen : 3 ≤ rawPts.length)
    (hlk : rawPts.all looks_like_point = true) :
    normalize_boundary (.arr rawPts) = .ok [ps]
    ∧ normalize_boundary (.arr [.arr rawPts]) = .ok [ps]
    ∧ ∀ fields, rawGet fields "coordinates".toList = some (.arr [.arr rawPts]) →
        rawGetD fields "type".toList = .str "Polygon".toList →
        normalize_boundary (.dict fields) = .ok [ps] := by
  have hlenps : ¬ ps.length < 3 := by
    rw [coerceAll_ok_length rawPts ps hco]
    omega
  have haddp : add_polygon rawPts = .ok ps := by
    simp [add_polygon, hco, hlenps]
  have hne2 : (rawPts.length == 2) = false := by
    simp only [beq_eq_false_iff_ne, ne_eq]
    omega
  have hemp : rawPts.isEmpty = false := by
    cases rawPts with
    | nil => simp at hlen
    | cons a l => rfl
  refine ⟨?_, ?_, ?_⟩
  · simp only [normalize_boundary, hemp, Bool.false_eq_true, if_false, hlk, if_true, haddp,
      Except.map]
  · have hnotall : ([Raw.arr rawPts].all looks_like_point) = false := by
      simp [looks_like_point, hne2]
    simp only [normalize_boundary, List.isEmpty_cons, Bool.false_eq_true, if_false, hnotall,
      List.mapM, List.mapM.loop, looks_like_point, haddp]
    rfl
  · intro fields hcf htf
    have hfalsy : (Raw.arr [Raw.arr rawPts]).falsy = false := rfl
    have htypeq : (rawGetD fields "type".toList).isStrEq "Polygon".toList = true := by
      rw [htf]; simp [Raw.isStrEq]
    simp only [normalize_boundary, hcf, hfalsy, Bool.false_eq_true, if_false, htypeq, if_true,
      looks_like_point, hne2, addPolygonRaw, haddp, Except.map]

/-- Witness for C6 at a concrete triangle mixing pair-encoded and
dict-encoded points: all three boundary encodings normalize to the same
single-polygon set. -/
theorem C6_normalize_boundary_encodings_witness :
    (coerceAll [Raw.arr [Raw.num 0, Raw.num 0], Raw.arr [Raw.num 0, Raw.num 1],
        Raw.dict [("latitude".toList, Raw.num 1), ("longitude".toList, Raw.num 0)]] =
      .ok [{ latitude := 0, longitude := 0 }, { latitude := 0, longitude := 1 },
        { latitude := 1, longitude := 0 }])
    ∧ normalize_boundary (.arr [Raw.arr [Raw.num 0, Raw.num 0], Raw.arr [Raw.num 0, Raw.num 1],
        Raw.dict [("latitude".toList, Raw.num 1), ("longitude".toList, Raw.num 0)]]) =
      .ok [[{ latitude := 0, longitude := 0 }, { latitude := 0, longitude := 1 },
        { latitude := 1, longitude := 0 }]]
    ∧ normalize_boundary (.dict [("type".toList, Raw.str "Polygon".toList),
        ("coordinates".toList, Raw.arr [Raw.arr [Raw.arr [Raw.num 0, Raw.num 0],
          Raw.arr [Raw.num 0, Raw.num 1],
          Raw.dict [("latitude".toList, Raw.num 1), ("longitude".toList, Raw.num 0)]]])]) =
      .ok [[{ latitude := 0, longitude := 0 }, { latitude := 0, longitude := 1 },
        { latitude := 1, longitude := 0 }]] := by
  refine ⟨rfl, ?_, ?_⟩
  · exact (C6_normalize_boundary_encodings
      [Raw.arr [Raw.num 0, Raw.num 0], Raw.arr [Raw.num 0, Raw.num 1],
        Raw.dict [("latitude".toList, Raw.num 1), ("longitude".toList, Raw.num 0)]]
      [{ latitude := 0, longitude := 0 }, { latitude := 0, longitude := 1 },
        { latitude := 1, longitude := 0 }] rfl (by decide) (by decide)).1
  · exact (C6_normalize_boundary_encodings
      [Raw.arr [Raw.num 0, Raw.num 0], Raw.arr [Raw.num 0, Raw.num 1],
        Raw.dict [("latitude".toList, Raw.num 1), ("longitude".toList, Raw.num 0)]]
      [{ latitude := 0, longitude := 0 }, { latitude := 0, longitude := 1 },
        { latitude := 1, longitude := 0 }] rfl (by decide) (by decide)).2.2
      [("type".toList, Raw.str "Polygon".toList),
        ("coordinates".toList, Raw.arr [Raw.arr [Raw.arr [Raw.num 0, Raw.num 0],
          Raw.arr [Raw.num 0, Raw.num 1],
          Raw.dict [("latitude".toList, Raw.num 1), ("longitude".toList, Raw.num 0)]]])]
      rfl rfl

/-! ## Fuzzy ranking: C3 -/

/-- The rank key order is total. -/
theorem rankKeyLe_total : ∀ x y : ℚ × Candidate, rankKeyLe x y ∨ rankKeyLe y x := by
  intro x y
  rcases lt_trichotomy x.1 y.1 with h | h | h
  · exact Or.inr (Or.inl h)
  · rcases charsLe_total x.2.name y.2.name with hn | hn
    · exact Or.inl (Or.inr ⟨h, hn⟩)
    · exact Or.inr (Or.inr ⟨h.symm, hn⟩)
  · exact Or.inl (Or.inl h)

/-- The rank key order is transitive. -/
theorem rankKeyLe_trans : ∀ x y z : ℚ × Candidate,
    rankKeyLe x y → rankKeyLe y z → rankKeyLe x z := by
  intro x y z hxy hyz
  rcases hxy with h1 | ⟨he1, hn1⟩
  · rcases hyz with h2 | ⟨he2, _⟩
    · exact Or.inl (lt_trans h2 h1)
    · exact Or.inl (he2 ▸ h1)
  · rcases hyz with h2 | ⟨he2, hn2⟩
    · exact Or.inl (he1 ▸ h2)
    · exact Or.inr ⟨he1.trans he2, charsLe_trans _ _ _ hn1 hn2⟩

/-- C3: for every candidate list, query and `limit ≥ 1`, `_fuzzy_rank`
returns at most `limit` items; it is non-empty whenever the candidate list
is; when any candidate scores at least `FUZZY_MIN_SCORE = 0.35` every
returned candidate does (otherwise the full scored pool is the fallback);
and the result is ordered by strictly descending score with ties broken by
ascending name. -/
theorem C3_fuzzy_rank_properties (candidates : List Candidate) (query : PyStr)
    (limit : Nat) (hl : 1 ≤ limit) :
    (fuzzy_rank candidates query limit).length ≤ limit
    ∧ (candidates ≠ [] → fuzzy_rank candidates query limit ≠ [])
    ∧ ((∃ c ∈ candidates, FUZZY_MIN_SCORE ≤ score_name_view c.name query) →
        ∀ c ∈ fuzzy_rank candidates query limit, FUZZY_MIN_SCORE ≤ score_name_view c.name query)
    ∧ (fuzzy_rank candidates query limit).Pairwise (fun x y =>
        score_name_view y.name query < score_name_view x.name query ∨
          (score_name_view x.name query = score_name_view y.name query ∧
            charsLe x.name y.name = true)) := by
  haveI : IsTotal (ℚ × Candidate) rankKeyLe := ⟨rankKeyLe_total⟩
  haveI : IsTrans (ℚ × Candidate) rankKeyLe := ⟨rankKeyLe_trans⟩
  cases hc : candidates.isEmpty with
  | true =>
    have hnil : candidates = [] := by
      cases candidates with
      | nil => rfl
      | cons a l => cases hc
    subst hnil
    refine ⟨?_, ?_, ?_, ?_⟩
    · simp [fuzzy_rank]
    · intro h; exact absurd rfl h
    · intro _ c hcmem
      simp [fuzzy_rank] at hcmem
    · simp [fuzzy_rank]
  | false =>
    have hrank : fuzzy_rank candidates query limit =
        ((List.insertionSort rankKeyLe
          (if ((candidates.map (fun c => (score_name_view c.name query, c))).filter
                (fun sc => decide (FUZZY_MIN_SCORE ≤ sc.1))).isEmpty then
            candidates.map (fun c => (score_name_view c.name query, c))
          else
            (candidates.map (fun c => (score_name_view c.name query, c))).filter
              (fun sc => decide (FUZZY_MIN_SCORE ≤ sc.1)))).take limit).map Prod.snd := by
      rw [fuzzy_rank, hc]
      rfl
    set scored := candidates.map (fun c => (score_name_view c.name query, c)) with hscored
    set significant := scored.filter (fun sc => decide (FUZZY_MIN_SCORE ≤ sc.1)) with hsig
    set pool := if significant.isEmpty then scored else significant with hpool
    have hrank2 : fuzzy_rank candidates query limit =
        ((List.insertionSort rankKeyLe pool).take limit).map Prod.snd := hrank
    have hPmem : ∀ sc ∈ scored, sc.1 = score_name_view sc.2.name query := by
      intro sc hsc
      rw [hscored] at hsc
      obtain ⟨c, _, rfl⟩ := List.mem_map.mp hsc
      rfl
    have hpool_sub : ∀ sc ∈ pool, sc ∈ scored := by
      intro sc hsc
      rw [hpool] at hsc
      by_cases hsige : significant.isEmpty = true
      · rw [if_pos hsige] at hsc; exact hsc
      · rw [if_neg hsige] at hsc
        rw [hsig] at hsc
        exact List.mem_of_mem_filter hsc
    have hsortmem : ∀ sc ∈ (List.insertionSort rankKeyLe pool).take limit, sc ∈ pool := by
      intro sc hsc
      have h1 : sc ∈ List.insertionSort rankKeyLe pool := List.take_subset _ _ hsc
      exact (List.perm_insertionSort rankKeyLe pool).mem_iff.mp h1
    refine ⟨?_, ?_, ?_, ?_⟩
    · rw [hrank2, List.length_map]
      exact List.length_take_le _ _
    · intro _
      rw [hrank2]
      have hclen : 1 ≤ candidates.length := by
        cases candidates with
        | nil => cases hc
        | cons a l => exact Nat.succ_le_succ (Nat.zero_le _)
      have hpoollen : 1 ≤ pool.length := by
        rw [hpool]
        by_cases hsige : significant.isEmpty = true
        · rw [if_pos hsige, hscored, List.length_map]; exact hclen
        · rw [if_neg hsige]
          cases hsigl : significant with
          | nil => rw [hsigl] at hsige; exact absurd rfl hsige
          | cons a l => exact Nat.succ_le_succ (Nat.zero_le _)
      have : 1 ≤ (((List.insertionSort rankKeyLe pool).take limit).map Prod.snd).length := by
        rw [List.length_map, List.length_take, (List.perm_insertionSort rankKeyLe pool).length_eq]
        omega
      intro hn
      rw [hn] at this
      simp at this
    · intro ⟨c0, hc0, hc0s⟩ c hcmem
      have hsignonempty : significant.isEmpty = false := by
        have hin : (score_name_view c0.name query, c0) ∈ significant := by
          rw [hsig]
          refine List.mem_filter.mpr ⟨?_, by simpa using hc0s⟩
          rw [hscored]
          exact List.mem_map.mpr ⟨c0, hc0, rfl⟩
        cases hsigl : significant with
        | nil => rw [hsigl] at hin; cases hin
        | cons a l => rfl
      have hpooleq : pool = significant := by rw [hpool, hsignonempty]; rfl
      rw [hrank2] at hcmem
      obtain ⟨sc, hsc, rfl⟩ := List.mem_map.mp hcmem
      have hsc2 : sc ∈ significant := hpooleq ▸ hsortmem sc hsc
      have hscge : FUZZY_MIN_SCORE ≤ sc.1 := by
        rw [hsig] at hsc2
        have := (List.mem_filter.mp hsc2).2
        simpa using this
      have hsceq := hPmem sc (hpool_sub sc (hpooleq ▸ hsc2))
      rw [hsceq] at hscge
      exact hscge
    · rw [hrank2]
      rw [List.pairwise_map]
      have hsorted : (List.insertionSort rankKeyLe pool).Pairwise rankKeyLe :=
        List.sorted_insertionSort rankKeyLe pool
      have htake : ((List.insertionSort rankKeyLe pool).take limit).Pairwise rankKeyLe :=
        hsorted.sublist (List.take_sublist _ _)
      refine List.Pairwise.imp_of_mem ?_ htake
      intro x y hx hy hr
      have hxP := hPmem x (hpool_sub x (hsortmem x hx))
      have hyP := hPmem y (hpool_sub y (hsortmem y hy))
      rcases hr with h | ⟨he, hn⟩
      · exact Or.inl (by rw [← hxP, ← hyP]; exact h)
      · exact Or.inr ⟨by rw [← hxP, ← hyP]; exact he, hn⟩

/-- Witness for C3 at a concrete query and candidate list: two candidates
clear the 0.35 bar ("Rocky Park" boosts to 0.95 as a prefix match,
"Rocky Mountain" to 0.95 as well), the low scorer is dropped, the result
is capped by the limit and ordered by score then name. -/
theorem C3_fuzzy_rank_properties_witness :
    (1 ≤ 2 ∧ ([⟨"Yellow".toList⟩, ⟨"Rocky Park".toList⟩, ⟨"Rocky Mountain".toList⟩]
        : List Candidate) ≠ [])
    ∧ (fuzzy_rank [⟨"Yellow".toList⟩, ⟨"Rocky Park".toList⟩, ⟨"Rocky Mountain".toList⟩]
        "rocky".toList 2).length ≤ 2
    ∧ (fuzzy_rank [⟨"Yellow".toList⟩, ⟨"Rocky Park".toList⟩, ⟨"Rocky Mountain".toList⟩]
        "rocky".toList 2 ≠ [])
    ∧ (fuzzy_rank [⟨"Yellow".toList⟩, ⟨"Rocky Park".toList⟩, ⟨"Rocky Mountain".toList⟩]
        "rocky".toList 2 =
        [⟨"Rocky Mountain".toList⟩, ⟨"Rocky Park".toList⟩]) := by
  refine ⟨⟨by decide, by decide⟩, ?_, ?_, by decide⟩
  · exact (C3_fuzzy_rank_properties _ _ 2 (by decide)).1
  · exact (C3_fuzzy_rank_properties
      [⟨"Yellow".toList⟩, ⟨"Rocky Park".toList⟩, ⟨"Rocky Mountain".toList⟩]
      "rocky".toList 2 (by decide)).2.1 (by decide)

/-! ## SequenceMatcher bounds: C4 -/

/-- Invariant carried by the matcher's best triple relative to caps
`cap`/`bhi`: either the initial zero match at `(alo, blo)`, or a genuine
block inside the windows. -/
def BestInv (alo blo cap bhi : Nat) (st : Nat × Nat × Nat) : Prop :=
  (st.2.2 = 0 ∧ st.1 = alo ∧ st.2.1 = blo) ∨
    (1 ≤ st.2.2 ∧ alo ≤ st.1 ∧ st.1 + st.2.2 ≤ cap ∧ blo ≤ st.2.1 ∧ st.2.1 + st.2.2 ≤ bhi)

/-- Invariant of a `j2len` row: non-zero entries sit in the `b` window and
are bounded by the distances to the window starts. -/
def RowInv (alo blo bhi bound : Nat) (f : Nat → Nat) : Prop :=
  ∀ j, f j ≠ 0 → blo ≤ j ∧ j < bhi ∧ f j ≤ j + 1 - blo ∧ f j ≤ bound - alo

/-- The new `j2len` row written by one inner-loop step. -/
theorem flmInner_fst (f : Nat → Nat) (i : Nat) (st : (Nat → Nat) × (Nat × Nat × Nat))
    (j : Nat) :
    (flmInner f i st j).1 =
      fun j' => if j' = j then (if j = 0 then 0 else f (j - 1)) + 1 else st.1 j' := by
  by_cases hc : st.2.2.2 < (if j = 0 then 0 else f (j - 1)) + 1
  · simp only [flmInner, if_pos hc]
  · simp only [flmInner, if_neg hc]

/-- The best triple after one inner-loop step. -/
theorem flmInner_snd (f : Nat → Nat) (i : Nat) (st : (Nat → Nat) × (Nat × Nat × Nat))
    (j : Nat) :
    (flmInner f i st j).2 =
      if st.2.2.2 < (if j = 0 then 0 else f (j - 1)) + 1 then
        (i + 1 - ((if j = 0 then 0 else f (j - 1)) + 1),
          j + 1 - ((if j = 0 then 0 else f (j - 1)) + 1),
          (if j = 0 then 0 else f (j - 1)) + 1)
      else st.2 := by
  by_cases hc : st.2.2.2 < (if j = 0 then 0 else f (j - 1)) + 1
  · simp only [flmInner, if_pos hc]
  · simp only [flmInner, if_neg hc]

/-- The candidate length `k` of an inner-loop step is bounded by the
distances to the window starts. -/
theorem flm_k_bounds (f : Nat → Nat) (i alo blo bhi : Nat) (hi : alo ≤ i)
    (hJ : RowInv alo blo bhi i f) (j : Nat) (hjlo : blo ≤ j) :
    (if j = 0 then 0 else f (j - 1)) + 1 ≤ i + 1 - alo ∧
      (if j = 0 then 0 else f (j - 1)) + 1 ≤ j + 1 - blo := by
  constructor
  · by_cases hj0 : j = 0
    · rw [if_pos hj0]; omega
    · rw [if_neg hj0]
      by_cases hf0 : f (j - 1) = 0
      · rw [hf0]; omega
      · have := (hJ (j - 1) hf0).2.2.2
        omega
  · by_cases hj0 : j = 0
    · rw [if_pos hj0]; omega
    · rw [if_neg hj0]
      by_cases hf0 : f (j - 1) = 0
      · rw [hf0]; omega
      · have h3 := (hJ (j - 1) hf0).2.2.1
        have h4 := (hJ (j - 1) hf0).1
        omega

/-- One inner-loop step preserves the row invariant. -/
theorem flmInner_step_row (f : Nat → Nat) (i alo blo bhi : Nat) (hi : alo ≤ i)
    (hJ : RowInv alo blo bhi i f) (st : (Nat → Nat) × (Nat × Nat × Nat)) (j : Nat)
    (hjlo : blo ≤ j) (hjhi : j < bhi) (h1 : RowInv alo blo bhi (i + 1) st.1) :
    RowInv alo blo bhi (i + 1) (flmInner f i st j).1 := by
  obtain ⟨hk1, hk2⟩ := flm_k_bounds f i alo blo bhi hi hJ j hjlo
  intro j' hnz
  have happ : (flmInner f i st j).1 j' =
      if j' = j then (if j = 0 then 0 else f (j - 1)) + 1 else st.1 j' := by
    rw [flmInner_fst]
  rw [happ] at hnz ⊢
  by_cases hjj : j' = j
  · subst hjj
    rw [if_pos rfl] at hnz ⊢
    exact ⟨hjlo, hjhi, hk2, by omega⟩
  · rw [if_neg hjj] at hnz ⊢
    exact h1 j' hnz

/-- One inner-loop step preserves the best-triple invariant. -/
theorem flmInner_step_best (f : Nat → Nat) (i alo blo bhi : Nat) (hi : alo ≤ i)
    (hJ : RowInv alo blo bhi i f) (st : (Nat → Nat) × (Nat × Nat × Nat)) (j : Nat)
    (hjlo : blo ≤ j) (hjhi : j < bhi) (h2 : BestInv alo blo (i + 1) bhi st.2) :
    BestInv alo blo (i + 1) bhi (flmInner f i st j).2 := by
  obtain ⟨hk1, hk2⟩ := flm_k_bounds f i alo blo bhi hi hJ j hjlo
  rw [flmInner_snd]
  generalize hK : (if j = 0 then 0 else f (j - 1)) + 1 = K at hk1 hk2 ⊢
  have h1K : 1 ≤ K := by omega
  by_cases hlt : st.2.2.2 < K
  · rw [if_pos hlt]
    refine Or.inr ⟨h1K, ?_, ?_, ?_, ?_⟩ <;> dsimp only <;> omega
  · rw [if_neg hlt]
    exact h2

/-- The inner loop of the dynamic program preserves both invariants. -/
theorem flmInner_fold_inv (f : Nat → Nat) (i alo blo bhi : Nat) (hi : alo ≤ i)
    (hJ : RowInv alo blo bhi i f) :
    ∀ (js : List Nat) (st : (Nat → Nat) × (Nat × Nat × Nat)),
      (∀ j ∈ js, blo ≤ j ∧ j < bhi) →
      RowInv alo blo bhi (i + 1) st.1 →
      BestInv alo blo (i + 1) bhi st.2 →
      RowInv alo blo bhi (i + 1) (js.foldl (flmInner f i) st).1 ∧
        BestInv alo blo (i + 1) bhi (js.foldl (flmInner f i) st).2 := by
  intro js
  induction js with
  | nil => intro st _ h1 h2; exact ⟨h1, h2⟩
  | cons j js ih =>
    intro st hjs h1 h2
    rw [List.foldl_cons]
    refine ih (flmInner f i st j) (fun j' hj' => hjs j' (List.mem_cons_of_mem _ hj')) ?_ ?_
    · exact flmInner_step_row f i alo blo bhi hi hJ st j
        (hjs j (List.mem_cons_self _ _)).1 (hjs j (List.mem_cons_self _ _)).2 h1
    · exact flmInner_step_best f i alo blo bhi hi hJ st j
        (hjs j (List.mem_cons_self _ _)).1 (hjs j (List.mem_cons_self _ _)).2 h2

/-- The best-triple invariant weakens along the a-cap. -/
theorem BestInv_mono {alo blo bhi cap cap' : Nat} (h : cap ≤ cap') (st : Nat × Nat × Nat)
    (hb : BestInv alo blo cap bhi st) : BestInv alo blo cap' bhi st := by
  rcases hb with h0 | ⟨h1, h2, h3, h4, h5⟩
  · exact Or.inl h0
  · exact Or.inr ⟨h1, h2, le_trans h3 h, h4, h5⟩

/-- The outer loop of the dynamic program preserves the best-triple
invariant, advancing the cap with the loop counter. -/
theorem flmDP_fold_inv (a b : List Char) (alo blo bhi : Nat) :
    ∀ (n i0 : Nat) (st : (Nat → Nat) × (Nat × Nat × Nat)), alo ≤ i0 →
      RowInv alo blo bhi i0 st.1 → BestInv alo blo i0 bhi st.2 →
      BestInv alo blo (i0 + n) bhi
        (((List.range' i0 n).foldl
          (fun st i =>
            (((b2j b (a.getD i defaultChar)).filter
              (fun j => decide (blo ≤ j) && decide (j < bhi))).foldl
              (flmInner st.1 i) ((fun _ => 0), st.2))) st).2) := by
  intro n
  induction n with
  | zero =>
    intro i0 st _ _ hbest
    simpa using hbest
  | succ n ih =>
    intro i0 st hi0 hrow hbest
    rw [List.range'_succ, List.foldl_cons]
    have hjs : ∀ j ∈ (b2j b (a.getD i0 defaultChar)).filter
        (fun j => decide (blo ≤ j) && decide (j < bhi)), blo ≤ j ∧ j < bhi := by
      intro j hj
      have := (List.mem_filter.mp hj).2
      simp only [Bool.and_eq_true, decide_eq_true_eq] at this
      exact this
    have hstep := flmInner_fold_inv st.1 i0 alo blo bhi hi0 hrow _ ((fun _ => 0), st.2) hjs
      (fun j h0 => absurd rfl h0) (BestInv_mono (Nat.le_succ i0) st.2 hbest)
    have := ih (i0 + 1) _ (by omega) hstep.1 hstep.2
    have harith : i0 + 1 + n = i0 + (n + 1) := by omega
    rw [harith] at this
    exact this

/-- The dynamic-programming phase keeps the best block inside the windows. -/
theorem flmDP_best (a b : List Char) (alo ahi blo bhi : Nat) :
    BestInv alo blo ahi bhi (flmDP a b alo ahi blo bhi).2 := by
  by_cases hle : alo ≤ ahi
  · have := flmDP_fold_inv a b alo blo bhi (ahi - alo) alo
      ((fun _ => 0), (alo, blo, 0)) (le_refl alo)
      (fun j h0 => absurd rfl h0) (Or.inl ⟨rfl, rfl, rfl⟩)
    have harith : alo + (ahi - alo) = ahi := by omega
    rw [harith] at this
    exact this
  · have hz : ahi - alo = 0 := by omega
    unfold flmDP
    rw [hz]
    exact Or.inl ⟨rfl, rfl, rfl⟩

/-- The backward extension preserves the best-triple invariant. -/
theorem extendBack_inv (a b : List Char) (alo blo cap bhi : Nat) :
    ∀ (fuel : Nat) (st : Nat × Nat × Nat), BestInv alo blo cap bhi st →
      BestInv alo blo cap bhi (extendBack a b alo blo fuel st) := by
  intro fuel
  induction fuel with
  | zero => intro st h; exact h
  | succ fuel ih =>
    intro st h
    obtain ⟨bi, bj, bs⟩ := st
    show BestInv alo blo cap bhi (extendBack a b alo blo (fuel + 1) (bi, bj, bs))
    rw [extendBack]
    by_cases hc : alo < bi ∧ blo < bj ∧
        a.getD (bi - 1) defaultChar = b.getD (bj - 1) defaultChar
    · rw [if_pos hc]
      obtain ⟨hc1, hc2, _⟩ := hc
      refine ih _ ?_
      rcases h with ⟨h0, hbi, hbj⟩ | ⟨h1, h2, h3, h4, h5⟩
      · simp only at h0 hbi hbj
        subst hbi
        exact absurd hc1 (lt_irrefl _)
      · simp only at h1 h2 h3 h4 h5
        refine Or.inr ?_
        dsimp only
        omega
    · rw [if_neg hc]
      exact h

/-- The forward extension preserves the best-triple invariant. -/
theorem extendFwd_inv (a b : List Char) (alo blo cap bhi : Nat) :
    ∀ (fuel : Nat) (st : Nat × Nat × Nat), BestInv alo blo cap bhi st →
      BestInv alo blo cap bhi (extendFwd a b cap bhi fuel st) := by
  intro fuel
  induction fuel with
  | zero => intro st h; exact h
  | succ fuel ih =>
    intro st h
    obtain ⟨bi, bj, bs⟩ := st
    show BestInv alo blo cap bhi (extendFwd a b cap bhi (fuel + 1) (bi, bj, bs))
    rw [extendFwd]
    by_cases hc : bi + bs < cap ∧ bj + bs < bhi ∧
        a.getD (bi + bs) defaultChar = b.getD (bj + bs) defaultChar
    · rw [if_pos hc]
      obtain ⟨hc1, hc2, _⟩ := hc
      refine ih _ ?_
      rcases h with ⟨h0, hbi, hbj⟩ | ⟨h1, h2, h3, h4, h5⟩
      · simp only at h0 hbi hbj
        subst hbi
        subst hbj
        subst h0
        refine Or.inr ?_
        dsimp only
        omega
      · simp only at h1 h2 h3 h4 h5
        refine Or.inr ?_
        dsimp only
        omega
    · rw [if_neg hc]
      exact h

/-- A non-trivial block reported by `find_longest_match` lies inside both
windows. -/
theorem find_longest_match_bounds (a b : List Char) (alo ahi blo bhi : Nat)
    (hk : (find_longest_match a b alo ahi blo bhi).2.2 ≠ 0) :
    alo ≤ (find_longest_match a b alo ahi blo bhi).1 ∧
      (find_longest_match a b alo ahi blo bhi).1 +
        (find_longest_match a b alo ahi blo bhi).2.2 ≤ ahi ∧
      blo ≤ (find_longest_match a b alo ahi blo bhi).2.1 ∧
      (find_longest_match a b alo ahi blo bhi).2.1 +
        (find_longest_match a b alo ahi blo bhi).2.2 ≤ bhi := by
  have hinv : BestInv alo blo ahi bhi (find_longest_match a b alo ahi blo bhi) := by
    unfold find_longest_match
    exact extendFwd_inv a b alo blo ahi bhi ahi _
      (extendBack_inv a b alo blo ahi bhi _ _ (flmDP_best a b alo ahi blo bhi))
  rcases hinv with ⟨h0, _, _⟩ | ⟨_, h2, h3, h4, h5⟩
  · exact absurd h0 hk
  · exact ⟨h2, h3, h4, h5⟩

/-- The total matched size is bounded by both window widths. -/
theorem matchSum_le (a b : List Char) :
    ∀ (fuel alo ahi blo bhi : Nat),
      matchSum a b fuel alo ahi blo bhi ≤ min (ahi - alo) (bhi - blo) := by
  intro fuel
  induction fuel with
  | zero => intro alo ahi blo bhi; exact Nat.zero_le _
  | succ fuel ih =>
    intro alo ahi blo bhi
    rw [matchSum]
    by_cases hk : (find_longest_match a b alo ahi blo bhi).2.2 = 0
    · rw [if_pos hk]; exact Nat.zero_le _
    · rw [if_neg hk]
      obtain ⟨hb1, hb2, hb3, hb4⟩ := find_longest_match_bounds a b alo ahi blo bhi hk
      have hL : (if alo < (find_longest_match a b alo ahi blo bhi).1 ∧
            blo < (find_longest_match a b alo ahi blo bhi).2.1 then
          matchSum a b fuel alo (find_longest_match a b alo ahi blo bhi).1 blo
            (find_longest_match a b alo ahi blo bhi).2.1 else 0) ≤
          min ((find_longest_match a b alo ahi blo bhi).1 - alo)
            ((find_longest_match a b alo ahi blo bhi).2.1 - blo) := by
        split
        · exact ih _ _ _ _
        · exact Nat.zero_le _
      have hR : (if (find_longest_match a b alo ahi blo bhi).1 +
              (find_longest_match a b alo ahi blo bhi).2.2 < ahi ∧
            (find_longest_match a b alo ahi blo bhi).2.1 +
              (find_longest_match a b alo ahi blo bhi).2.2 < bhi then
          matchSum a b fuel
            ((find_longest_match a b alo ahi blo bhi).1 +
              (find_longest_match a b alo ahi blo bhi).2.2) ahi
            ((find_longest_match a b alo ahi blo bhi).2.1 +
              (find_longest_match a b alo ahi blo bhi).2.2) bhi else 0) ≤
          min (ahi - ((find_longest_match a b alo ahi blo bhi).1 +
              (find_longest_match a b alo ahi blo bhi).2.2))
            (bhi - ((find_longest_match a b alo ahi blo bhi).2.1 +
              (find_longest_match a b alo ahi blo bhi).2.2)) := by
        split
        · exact ih _ _ _ _
        · exact Nat.zero_le _
      omega

/-- The similarity ratio always lies in `[0, 1]`. -/
theorem ratioValue_bounds (a b : List Char) :
    0 ≤ ratioValue a b ∧ ratioValue a b ≤ 1 := by
  unfold ratioValue
  by_cases hT : a.length + b.length = 0
  · rw [if_pos hT]
    norm_num
  · rw [if_neg hT]
    have hM := matchSum_le a b (a.length + 1) 0 a.length 0 b.length
    have h2M : 2 * matchSum a b (a.length + 1) 0 a.length 0 b.length ≤
        a.length + b.length := by omega
    rw [Rat.mkRat_eq_divInt, Rat.divInt_eq_div]
    constructor
    · apply div_nonneg
      · exact_mod_cast Int.ofNat_nonneg _
      · exact_mod_cast Int.ofNat_nonneg _
    · rw [div_le_one (by exact_mod_cast Nat.pos_of_ne_zero hT)]
      exact_mod_cast h2M

/-- The boost constants are at most one. -/
theorem boost95_le_one : (mkRat 95 100 : ℚ) ≤ 1 := by
  rw [Rat.mkRat_eq_divInt, Rat.divInt_eq_div]
  norm_num

/-- The 0.85 boost constant is at most one. -/
theorem boost85_le_one : (mkRat 85 100 : ℚ) ≤ 1 := by
  rw [Rat.mkRat_eq_divInt, Rat.divInt_eq_div]
  norm_num

/-- The transformer scorer stays in `[0, 1]`. -/
theorem score_name_bounds (c q : PyStr) : 0 ≤ score_name c q ∧ score_name c q ≤ 1 := by
  unfold score_name
  obtain ⟨h0, h1⟩ := ratioValue_bounds (pyLower c) (pyLower q)
  by_cases hp : (pyLower q).isPrefixOf (pyLower c) = true
  · rw [if_pos hp]
    exact ⟨le_trans h0 (le_max_left _ _), max_le h1 boost95_le_one⟩
  · rw [if_neg hp]
    by_cases hi : containsSub (pyLower q) (pyLower c) = true
    · rw [if_pos hi]
      exact ⟨le_trans h0 (le_max_left _ _), max_le h1 boost85_le_one⟩
    · rw [if_neg hi]
      exact ⟨h0, h1⟩

/-- The API scorer stays in `[0, 1]`. -/
theorem score_name_view_bounds (c q : PyStr) :
    0 ≤ score_name_view c q ∧ score_name_view c q ≤ 1 := by
  unfold score_name_view
  by_cases he : (pyLower c).isEmpty = true
  · rw [if_pos he]
    norm_num
  · rw [if_neg he]
    obtain ⟨h0, h1⟩ := ratioValue_bounds (pyLower c) (pyLower q)
    by_cases hp : (pyLower q).isPrefixOf (pyLower c) = true
    · rw [if_pos hp]
      exact ⟨le_trans h0 (le_max_left _ _), max_le h1 boost95_le_one⟩
    · rw [if_neg hp]
      by_cases hi : containsSub (pyLower q) (pyLower c) = true
      · rw [if_pos hi]
        exact ⟨le_trans h0 (le_max_left _ _), max_le h1 boost85_le_one⟩
      · rw [if_neg hi]
        exact ⟨h0, h1⟩

/-- C4 counterexample: the transformer's `score_name` (which lacks the
views' empty-candidate guard) returns 1, not 0, on an empty candidate with
an empty query — both empty strings have similarity ratio 1 and the prefix
boost keeps it. -/
theorem C4_empty_candidate_counterexample :
    score_name "".toList "".toList = 1 ∧ score_name "".toList "".toList ≠ 0 := by
  constructor
  · decide
  · decide

/-- C4 (amended): both scorers return the lowercased-forms similarity
ratio boosted to at least 0.95 on a prefix match and else to at least 0.85
on a substring match, and the result always lies in `[0, 1]`; the API
scorer returns 0 for every empty candidate, while the transformer scorer
returns 0 for an empty candidate only when the query is non-empty (with
both inputs empty it returns 1); on non-empty candidates the two scorers
agree. -/
theorem C4_score_name_properties (c q : PyStr) :
    (0 ≤ score_name c q ∧ score_name c q ≤ 1)
    ∧ (0 ≤ score_name_view c q ∧ score_name_view c q ≤ 1)
    ∧ score_name_view [] q = 0
    ∧ (q ≠ [] → score_name [] q = 0)
    ∧ ((pyLower q).isPrefixOf (pyLower c) = true → mkRat 95 100 ≤ score_name c q)
    ∧ ((pyLower q).isPrefixOf (pyLower c) = false →
        containsSub (pyLower q) (pyLower c) = true → mkRat 85 100 ≤ score_name c q)
    ∧ (c ≠ [] → score_name_view c q = score_name c q) := by
  refine ⟨score_name_bounds c q, score_name_view_bounds c q, rfl, ?_, ?_, ?_, ?_⟩
  · intro hq
    unfold score_name
    have hql : pyLower q ≠ [] := by
      cases q with
      | nil => exact absurd rfl hq
      | cons a l => simp [pyLower]
    have hr : ratioValue (pyLower []) (pyLower q) = 0 := by
      unfold ratioValue
      have hT : (pyLower ([] : PyStr)).length + (pyLower q).length ≠ 0 := by
        cases hpq : pyLower q with
        | nil => exact absurd hpq hql
        | cons a l => simp [pyLower]
      rw [if_neg hT]
      have hms : matchSum (pyLower []) (pyLower q) ((pyLower ([] : PyStr)).length + 1)
          0 (pyLower ([] : PyStr)).length 0 (pyLower q).length = 0 := rfl
      rw [hms]
      exact (Rat.mkRat_eq_zero (by omega)).mpr rfl
    have hpf : (pyLower q).isPrefixOf (pyLower []) = false := by
      cases hpq : pyLower q with
      | nil => exact absurd hpq hql
      | cons a l => rfl
    have hct : containsSub (pyLower q) (pyLower []) = false := by
      cases hpq : pyLower q with
      | nil => exact absurd hpq hql
      | cons a l => rfl
    simp only [hpf, hct, Bool.false_eq_true, if_false]
    exact hr
  · intro hp
    unfold score_name
    rw [if_pos hp]
    exact le_max_right _ _
  · intro hp hi
    unfold score_name
    rw [if_neg (by rw [hp]; exact Bool.false_ne_true), if_pos hi]
    exact le_max_right _ _
  · intro hc
    unfold score_name_view score_name
    have : (pyLower c).isEmpty = false := by
      cases c with
      | nil => exact absurd rfl hc
      | cons a l => rfl
    simp only [this, Bool.false_eq_true, if_false]

/-- Witness for C4 at concrete inputs: "Rocky" vs query "rock" is a
case-insensitive prefix match, so the score is boosted to at least 0.95
(and stays within `[0, 1]`); the API scorer agrees with the transformer
scorer there; and the empty candidate scores 0 against the non-empty
query. -/
theorem C4_score_name_properties_witness :
    (("rock".toList : PyStr) ≠ [] ∧ ("Rocky".toList : PyStr) ≠ [] ∧
      (pyLower "rock".toList).isPrefixOf (pyLower "Rocky".toList) = true)
    ∧ (0 ≤ score_name "Rocky".toList "rock".toList ∧
        score_name "Rocky".toList "rock".toList ≤ 1)
    ∧ mkRat 95 100 ≤ score_name "Rocky".toList "rock".toList
    ∧ score_name [] "rock".toList = 0
    ∧ score_name_view "Rocky".toList "rock".toList = score_name "Rocky".toList "rock".toList := by
  refine ⟨⟨by decide, by decide, by decide⟩, ?_, ?_, ?_, ?_⟩
  · exact (C4_score_name_properties "Rocky".toList "rock".toList).1
  · exact (C4_score_name_properties "Rocky".toList "rock".toList).2.2.2.2.1 (by decide)
  · exact (C4_score_name_properties "Rocky".toList "rock".toList).2.2.2.1 (by decide)
  · exact (C4_score_name_properties "Rocky".toList "rock".toList).2.2.2.2.2.2 (by decide)

/-- The haversine distance from a point to itself is zero. -/
theorem haversineDistance_self (c : RPoint) : haversineDistance c c = 0 := by
  unfold haversineDistance atan2
  simp only [sub_self, zero_div, Real.sin_zero, ne_eq, OfNat.ofNat_ne_zero,
    not_false_eq_true, zero_pow, mul_zero, add_zero, Real.sqrt_zero, sub_zero,
    Real.sqrt_one]
  have h1 : (⟨1, 0⟩ : ℂ) = 1 := by
    apply Complex.ext <;> simp
  rw [h1, Complex.arg_one, mul_zero, mul_zero]

/-- C8: `point_within_circle` returns false for every non-positive radius;
for a positive radius it returns true exactly when the haversine distance
(Earth radius 6,371,000 m) is at most the radius; and the center itself is
always within any positive radius. -/
theorem C8_point_within_circle_iff (p c : RPoint) (r : ℝ) :
    (r ≤ 0 → point_within_circle p c r = false)
    ∧ (0 < r → (point_within_circle p c r = true ↔ haversineDistance p c ≤ r))
    ∧ (0 < r → point_within_circle c c r = true) := by
  refine ⟨?_, ?_, ?_⟩
  · intro h
    unfold point_within_circle
    rw [if_pos h]
  · intro h
    unfold point_within_circle
    rw [if_neg (not_le.mpr h)]
    exact decide_eq_true_iff
  · intro h
    unfold point_within_circle
    rw [if_neg (not_le.mpr h), haversineDistance_self]
    exact decide_eq_true (le_of_lt h)

/-- Witness for C8 at a concrete center and radii 1 and -1. -/
theorem C8_point_within_circle_iff_witness :
    point_within_circle ⟨0, 0⟩ ⟨0, 0⟩ 1 = true ∧
      point_within_circle ⟨0, 0⟩ ⟨0, 0⟩ (-1) = false :=
  ⟨(C8_point_within_circle_iff ⟨0, 0⟩ ⟨0, 0⟩ 1).2.2 (by norm_num),
   (C8_point_within_circle_iff ⟨0, 0⟩ ⟨0, 0⟩ (-1)).1 (by norm_num)⟩

theorem radiansOf_degreesOf (t : ℝ) : radiansOf (degreesOf t) = t := by
  unfold radiansOf degreesOf
  have hpi := Real.pi_ne_zero
  field_simp

theorem sinSqHalf (u : ℝ) : Real.sin (u / 2) ^ 2 = (1 - Real.cos u) / 2 := by
  have h := Real.cos_sq (u / 2)
  have h2 := Real.sin_sq_add_cos_sq (u / 2)
  have hu : 2 * (u / 2) = u := by ring
  rw [hu] at h
  linarith

theorem sphere_sq_identity (phi d th : ℝ) :
    (Real.sin phi * Real.cos d + Real.cos phi * Real.sin d * Real.cos th) ^ 2
      + (Real.cos phi * Real.cos d - Real.sin phi * Real.sin d * Real.cos th) ^ 2
      + (Real.sin d * Real.sin th) ^ 2 = 1 := by
  linear_combination (Real.cos d ^ 2 + Real.sin d ^ 2 * Real.cos th ^ 2) *
      Real.sin_sq_add_cos_sq phi
    + Real.sin d ^ 2 * Real.sin_sq_add_cos_sq th
    + Real.sin_sq_add_cos_sq d

theorem dest_sq_le_one (phi d th : ℝ) :
    (Real.sin phi * Real.cos d + Real.cos phi * Real.sin d * Real.cos th) ^ 2 ≤ 1 := by
  nlinarith [sphere_sq_identity phi d th,
    sq_nonneg (Real.cos phi * Real.cos d - Real.sin phi * Real.sin d * Real.cos th),
    sq_nonneg (Real.sin d * Real.sin th)]

theorem cos_atan2_mul (y x : ℝ) :
    Real.cos (atan2 y x) * Real.sqrt (x ^ 2 + y ^ 2) = x := by
  unfold atan2
  by_cases hz : (⟨x, y⟩ : ℂ) = 0
  · have hx : x = 0 := congrArg Complex.re hz
    have hy : y = 0 := congrArg Complex.im hz
    subst hx
    subst hy
    simp
  · rw [Complex.cos_arg hz]
    have habs : Complex.abs ⟨x, y⟩ = Real.sqrt (x ^ 2 + y ^ 2) := by
      rw [Complex.abs_apply, Complex.normSq_mk]
      ring_nf
    have hne : Real.sqrt (x ^ 2 + y ^ 2) ≠ 0 := by
      rw [← habs]
      exact Complex.abs.ne_zero hz
    rw [habs]
    field_simp

theorem XY_sq (phi d th : ℝ) :
    (Real.cos d - Real.sin phi *
        (Real.sin phi * Real.cos d + Real.cos phi * Real.sin d * Real.cos th)) ^ 2
      + (Real.sin th * Real.sin d * Real.cos phi) ^ 2
    = Real.cos phi ^ 2 *
        (1 - (Real.sin phi * Real.cos d + Real.cos phi * Real.sin d * Real.cos th) ^ 2) := by
  linear_combination ((Real.sin phi * Real.cos d + Real.cos phi * Real.sin d * Real.cos th) ^ 2
      - Real.cos d ^ 2) * Real.sin_sq_add_cos_sq phi
    + Real.cos phi ^ 2 * Real.sin d ^ 2 * Real.sin_sq_add_cos_sq th
    + Real.cos phi ^ 2 * Real.sin_sq_add_cos_sq d

theorem circlePoint_latitude (center : RPoint) (d b : ℝ) :
    (circlePoint center d b).latitude = degreesOf (Real.arcsin
      (Real.sin (radiansOf center.latitude) * Real.cos d +
        Real.cos (radiansOf center.latitude) * Real.sin d * Real.cos b)) := rfl

theorem circlePoint_longitude (center : RPoint) (d b : ℝ) :
    (circlePoint center d b).longitude = degreesOf (radiansOf center.longitude + atan2
      (Real.sin b * Real.sin d * Real.cos (radiansOf center.latitude))
      (Real.cos d - Real.sin (radiansOf center.latitude) * Real.sin (Real.arcsin
        (Real.sin (radiansOf center.latitude) * Real.cos d +
          Real.cos (radiansOf center.latitude) * Real.sin d * Real.cos b)))) := rfl

theorem haversineDistance_eq (p c : RPoint) : haversineDistance p c =
    EARTH_RADIUS_METERS * (2 * atan2
      (Real.sqrt (Real.sin ((radiansOf c.latitude - radiansOf p.latitude) / 2) ^ 2 +
        Real.cos (radiansOf p.latitude) * Real.cos (radiansOf c.latitude) *
          Real.sin ((radiansOf c.longitude - radiansOf p.longitude) / 2) ^ 2))
      (Real.sqrt (1 - (Real.sin ((radiansOf c.latitude - radiansOf p.latitude) / 2) ^ 2 +
        Real.cos (radiansOf p.latitude) * Real.cos (radiansOf c.latitude) *
          Real.sin ((radiansOf c.longitude - radiansOf p.longitude) / 2) ^ 2)))) := rfl

theorem circlePoint_dist (center : RPoint) (d b : ℝ)
    (hlat : |center.latitude| ≤ 90) (hd0 : 0 < d) (hdpi : d ≤ Real.pi) :
    haversineDistance (circlePoint center d b) center = EARTH_RADIUS_METERS * d := by
  have hpi := Real.pi_pos
  rw [haversineDistance_eq, circlePoint_latitude, circlePoint_longitude,
    radiansOf_degreesOf, radiansOf_degreesOf]
  set phi := radiansOf center.latitude with hphidef
  have hphirange : |phi| ≤ Real.pi / 2 := by
    rw [hphidef]
    unfold radiansOf
    have habs : |center.latitude * Real.pi / 180| = |center.latitude| * Real.pi / 180 := by
      rw [abs_div, abs_mul, abs_of_nonneg hpi.le]
      norm_num
    rw [habs]
    have h90 : |center.latitude| * Real.pi / 180 ≤ 90 * Real.pi / 180 := by
      gcongr
    linarith
  have hphibound := abs_le.mp hphirange
  have hcosphi : 0 ≤ Real.cos phi :=
    Real.cos_nonneg_of_mem_Icc ⟨by linarith [hphibound.1], by linarith [hphibound.2]⟩
  set x := Real.sin phi * Real.cos d + Real.cos phi * Real.sin d * Real.cos b with hxdef
  have hxsq : x ^ 2 ≤ 1 := by rw [hxdef]; exact dest_sq_le_one phi d b
  have hx1 : (-1 : ℝ) ≤ x := by nlinarith [hxsq]
  have hx2 : x ≤ 1 := by nlinarith [hxsq]
  have hsinarc : Real.sin (Real.arcsin x) = x := Real.sin_arcsin hx1 hx2
  have hcosarc : Real.cos (Real.arcsin x) = Real.sqrt (1 - x ^ 2) := Real.cos_arcsin x
  rw [hsinarc]
  set Y := Real.sin b * Real.sin d * Real.cos phi with hYdef
  set X := Real.cos d - Real.sin phi * x with hXdef
  have hlon : radiansOf center.longitude - (radiansOf center.longitude + atan2 Y X) =
      -(atan2 Y X) := by ring
  rw [hlon, neg_div, Real.sin_neg, neg_sq]
  have hE : Real.cos (atan2 Y X) * (Real.cos phi * Real.sqrt (1 - x ^ 2)) = X := by
    have h1 := cos_atan2_mul Y X
    have h2 : X ^ 2 + Y ^ 2 = Real.cos phi ^ 2 * (1 - x ^ 2) := by
      rw [hXdef, hYdef, hxdef]
      exact XY_sq phi d b
    rw [h2, Real.sqrt_mul (sq_nonneg _), Real.sqrt_sq hcosphi] at h1
    exact h1
  have hXval : X = Real.cos d - Real.sin phi * x := hXdef
  have ha : Real.sin ((phi - Real.arcsin x) / 2) ^ 2 +
      Real.cos (Real.arcsin x) * Real.cos phi * Real.sin (atan2 Y X / 2) ^ 2 =
      Real.sin (d / 2) ^ 2 := by
    rw [sinSqHalf, sinSqHalf, sinSqHalf, Real.cos_sub, hsinarc, hcosarc]
    linear_combination (-(1 : ℝ) / 2) * hE + (-(1 : ℝ) / 2) * hXval
  rw [ha]
  have h1a : 1 - Real.sin (d / 2) ^ 2 = Real.cos (d / 2) ^ 2 := by
    have := Real.sin_sq_add_cos_sq (d / 2)
    linarith
  rw [h1a]
  have hs : Real.sqrt (Real.sin (d / 2) ^ 2) = Real.sin (d / 2) :=
    Real.sqrt_sq (Real.sin_nonneg_of_nonneg_of_le_pi (by linarith) (by linarith))
  have hc : Real.sqrt (Real.cos (d / 2) ^ 2) = Real.cos (d / 2) :=
    Real.sqrt_sq (Real.cos_nonneg_of_mem_Icc ⟨by linarith, by linarith⟩)
  rw [hs, hc]
  have hatan : atan2 (Real.sin (d / 2)) (Real.cos (d / 2)) = d / 2 := by
    unfold atan2
    have hmk : (⟨Real.cos (d / 2), Real.sin (d / 2)⟩ : ℂ) =
        (Real.cos (d / 2) : ℂ) + (Real.sin (d / 2) : ℂ) * Complex.I :=
      Complex.mk_eq_add_mul_I _ _
    rw [hmk, Complex.ofReal_cos, Complex.ofReal_sin]
    exact Complex.arg_cos_add_sin_mul_I ⟨by linarith, by linarith⟩
  rw [hatan]
  ring

theorem haversineDistance_le (p c : RPoint) :
    0 ≤ haversineDistance p c ∧
      haversineDistance p c ≤ Real.pi * EARTH_RADIUS_METERS := by
  rw [haversineDistance_eq]
  set A := Real.sin ((radiansOf c.latitude - radiansOf p.latitude) / 2) ^ 2 +
    Real.cos (radiansOf p.latitude) * Real.cos (radiansOf c.latitude) *
      Real.sin ((radiansOf c.longitude - radiansOf p.longitude) / 2) ^ 2 with hA
  unfold atan2
  have h0 : 0 ≤ Complex.arg ⟨Real.sqrt (1 - A), Real.sqrt A⟩ :=
    Complex.arg_nonneg_iff.mpr (Real.sqrt_nonneg A)
  have h2 : Complex.arg ⟨Real.sqrt (1 - A), Real.sqrt A⟩ ≤ Real.pi / 2 :=
    Complex.arg_le_pi_div_two_iff.mpr (Or.inl (Real.sqrt_nonneg (1 - A)))
  have hR : (0 : ℝ) ≤ EARTH_RADIUS_METERS := by norm_num [EARTH_RADIUS_METERS]
  constructor
  · exact mul_nonneg hR (by linarith)
  · nlinarith [h2, hR, Real.pi_pos]

/-- C7 counterexample: with a radius of 10^10 meters the generated
"circle" cannot lie near the requested distance — every haversine distance
is at most pi times the Earth radius, far below (1 - 1e-6) * 10^10. -/
theorem C7_distance_counterexample :
    ∃ pts, circle_boundary ⟨0, 0⟩ 10000000000 3 = Except.ok pts ∧
      ∃ p ∈ pts, haversineDistance p ⟨0, 0⟩ <
        (1 - 1 / 1000000) * 10000000000 := by
  have hok : circle_boundary ⟨0, 0⟩ 10000000000 3 =
      Except.ok ((List.range (3 : ℤ).toNat).map fun (step : ℕ) =>
        circlePoint ⟨0, 0⟩ (10000000000 / EARTH_RADIUS_METERS)
          (2 * Real.pi * (step : ℝ) / ((3 : ℤ) : ℝ))) := by
    unfold circle_boundary
    rw [if_neg (by norm_num), if_neg (by norm_num)]
  refine ⟨_, hok, ?_⟩
  refine ⟨circlePoint ⟨0, 0⟩ (10000000000 / EARTH_RADIUS_METERS)
    (2 * Real.pi * ((0 : ℕ) : ℝ) / ((3 : ℤ) : ℝ)), ?_, ?_⟩
  · have h03 : (0 : ℕ) ∈ List.range (3 : ℤ).toNat := by decide
    exact List.mem_map_of_mem _ h03
  · have hb := (haversineDistance_le (circlePoint ⟨0, 0⟩
      (10000000000 / EARTH_RADIUS_METERS)
      (2 * Real.pi * ((0 : ℕ) : ℝ) / ((3 : ℤ) : ℝ))) ⟨0, 0⟩).2
    have hpi4 := Real.pi_le_four
    have hprod : Real.pi * EARTH_RADIUS_METERS ≤ 4 * 6371000 := by
      have hRval : EARTH_RADIUS_METERS = 6371000 := rfl
      rw [hRval]
      nlinarith [hpi4]
    linarith [hb, hprod]

/-- C7 (amended): `circle_boundary` fails for a non-positive radius and for
fewer than three segments; otherwise it returns exactly `s` points, and
whenever the center latitude is a valid one (at most 90 degrees in absolute
value) and the radius does not exceed pi times the Earth radius, every
returned point lies at haversine distance exactly `r` from the center. The
claimed (1 plus or minus 1e-6) * r distance bound fails for larger radii. -/
theorem C7_circle_boundary_properties (center : RPoint) (r : ℝ) (s : ℤ) :
    (r ≤ 0 → circle_boundary center r s =
      Except.error "Radius must be greater than zero")
    ∧ (0 < r → s < 3 → circle_boundary center r s =
      Except.error "Circle boundary requires at least three segments")
    ∧ (0 < r → 3 ≤ s →
        ∃ pts, circle_boundary center r s = Except.ok pts ∧ (pts.length : ℤ) = s
          ∧ (|center.latitude| ≤ 90 → r ≤ Real.pi * EARTH_RADIUS_METERS →
              ∀ p ∈ pts, haversineDistance p center = r)) := by
  have hR : (0 : ℝ) < EARTH_RADIUS_METERS := by norm_num [EARTH_RADIUS_METERS]
  refine ⟨?_, ?_, ?_⟩
  · intro h
    unfold circle_boundary
    rw [if_pos h]
  · intro hr hs
    unfold circle_boundary
    rw [if_neg (not_le.mpr hr), if_pos hs]
  · intro hr hs
    have hok : circle_boundary center r s =
        Except.ok ((List.range s.toNat).map fun (step : ℕ) =>
          circlePoint center (r / EARTH_RADIUS_METERS)
            (2 * Real.pi * (step : ℝ) / (s : ℝ))) := by
      unfold circle_boundary
      rw [if_neg (not_le.mpr hr), if_neg (not_lt.mpr hs)]
    refine ⟨_, hok, ?_, ?_⟩
    · rw [List.length_map, List.length_range]
      exact Int.toNat_of_nonneg (by linarith)
    · intro hlat hrmax p hp
      rw [List.mem_map] at hp
      obtain ⟨step, _, hstep⟩ := hp
      subst hstep
      rw [circlePoint_dist center (r / EARTH_RADIUS_METERS) _ hlat
        (div_pos hr hR) ((div_le_iff₀ hR).mpr (by linarith))]
      field_simp

/-- Witness for C7 at a concrete center, radii -1 and 1, and segment
counts 32, 2 and 3. -/
theorem C7_circle_boundary_properties_witness :
    circle_boundary ⟨0, 0⟩ (-1) 32 = Except.error "Radius must be greater than zero"
    ∧ circle_boundary ⟨0, 0⟩ 1 2 =
        Except.error "Circle boundary requires at least three segments"
    ∧ ∃ pts, circle_boundary ⟨0, 0⟩ 1 3 = Except.ok pts ∧ (pts.length : ℤ) = 3
        ∧ ∀ p ∈ pts, haversineDistance p ⟨0, 0⟩ = 1 := by
  obtain ⟨pts, hok, hlen, hdist⟩ :=
    (C7_circle_boundary_properties ⟨0, 0⟩ 1 3).2.2 (by norm_num) (by norm_num)
  refine ⟨(C7_circle_boundary_properties ⟨0, 0⟩ (-1) 32).1 (by norm_num),
    (C7_circle_boundary_properties ⟨0, 0⟩ 1 2).2.1 (by norm_num) (by norm_num),
    pts, hok, hlen, hdist ?_ ?_⟩
  · norm_num
  · have hRval : EARTH_RADIUS_METERS = (6371000 : ℝ) := rfl
    rw [hRval]
    nlinarith [Real.pi_gt_three]

/-- A string with non-blank strip is truthy. -/
theorem pyTruthy_of_strip {n : PyStr} (h : (pyStrip n).isEmpty = false) :
    pyTruthy (some n) = true := by
  cases n with
  | nil => exact absurd h (by decide)
  | cons a t => rfl

/-- `payload.notes or payload.description` when notes is a non-blank string. -/
theorem pyOrOpt_some_of_strip {n : PyStr} (h : (pyStrip n).isEmpty = false) :
    pyOrOpt (some n) none = some n := by
  unfold pyOrOpt
  rw [pyTruthy_of_strip h]
  exact if_pos rfl

/-- First presentation merge into a fresh aggregate: the normalized
boundary is adopted and the stripped note recorded. -/
theorem presentation_merge_fresh (kh n1 : PyStr) (l1o : Option PyStr) (b1 : Raw)
    (hsn1 : (pyStrip n1).isEmpty = false) :
    LocationPresentationAggregate.merge { hazard_key := kh }
      { location := l1o, notes := some n1, boundary := b1 } =
      { hazard_key := kh, boundary := tNormalizeBoundary b1, notes := [pyStrip n1] } := by
  have htr := pyOrOpt_some_of_strip hsn1
  have hstripn : ¬ ((pyStrip n1).isEmpty = true) := by
    rw [hsn1]
    exact Bool.false_ne_true
  by_cases hb1 : (tNormalizeBoundary b1).isEmpty = true
  · have e1 : tNormalizeBoundary b1 = [] := List.isEmpty_iff.mp hb1
    simp only [LocationPresentationAggregate.merge, htr, e1, List.isEmpty_nil,
      Bool.not_true, Bool.false_eq_true, false_and, if_false, hsn1, notesAdd,
      List.not_mem_nil, List.nil_append]
  · have hb1' : (tNormalizeBoundary b1).isEmpty = false := by simpa using hb1
    simp only [LocationPresentationAggregate.merge, htr, hb1', Bool.not_false,
      List.isEmpty_nil, true_and, if_true, hsn1, Bool.false_eq_true, if_false,
      notesAdd, List.not_mem_nil, List.nil_append]

/-- Second presentation merge: the boundary is kept unless it was empty,
and the distinct stripped note is appended. -/
theorem presentation_merge_second (kh n1 n2 : PyStr) (l2o : Option PyStr) (b2 : Raw)
    (B1 : List LatLng)
    (hsn2 : (pyStrip n2).isEmpty = false)
    (hnn : pyStrip n1 ≠ pyStrip n2) :
    LocationPresentationAggregate.merge
      { hazard_key := kh, boundary := B1, notes := [pyStrip n1] }
      { location := l2o, notes := some n2, boundary := b2 } =
      { hazard_key := kh,
        boundary := if B1.isEmpty then tNormalizeBoundary b2 else B1,
        notes := [pyStrip n1, pyStrip n2] } := by
  have htr := pyOrOpt_some_of_strip hsn2
  have hstripn : ¬ ((pyStrip n2).isEmpty = true) := by
    rw [hsn2]
    exact Bool.false_ne_true
  have hnotmem : ¬ (pyStrip n2 ∈ [pyStrip n1]) := by
    intro hx
    exact hnn (List.mem_singleton.mp hx).symm
  have hadd : notesAdd [pyStrip n1] (pyStrip n2) = [pyStrip n1, pyStrip n2] := by
    unfold notesAdd
    rw [if_neg hnotmem]
    rfl
  by_cases hb1 : B1.isEmpty = true
  · have e1 : B1 = [] := List.isEmpty_iff.mp hb1
    subst e1
    rw [if_pos List.isEmpty_nil]
    by_cases hb2 : (tNormalizeBoundary b2).isEmpty = true
    · have e2 : tNormalizeBoundary b2 = [] := List.isEmpty_iff.mp hb2
      simp only [LocationPresentationAggregate.merge, htr, e2, List.isEmpty_nil,
        Bool.not_true, Bool.false_eq_true, false_and, if_false, hsn2, hadd]
    · have hb2' : (tNormalizeBoundary b2).isEmpty = false := by simpa using hb2
      simp only [LocationPresentationAggregate.merge, htr, hb2', Bool.not_false,
        List.isEmpty_nil, true_and, if_true, hsn2, Bool.false_eq_true, if_false, hadd]
  · have hb1' : B1.isEmpty = false := by simpa using hb1
    rw [if_neg hb1]
    simp only [LocationPresentationAggregate.merge, htr, hb1', Bool.false_eq_true,
      and_false, if_false, hsn2, hadd]

/-- A one-character string recurses to the empty boundary. -/
theorem tNormalizeBoundaryEGo_str_one (fuel : Nat) (ch : Char) :
    tNormalizeBoundaryEGo fuel (Raw.str [ch]) = Except.ok [] := by
  cases fuel with
  | zero => rfl
  | succ fuel => rfl

/-- On every input where the faithful transformer `normalize_boundary`
model does not raise, the crash-collapsing projection used by the pipeline
state computes the same boundary. -/
theorem tNormalizeBoundaryEGo_ok : ∀ (fuel : Nat) (raw : Raw) (v : List LatLng),
    tNormalizeBoundaryEGo fuel raw = Except.ok v → tNormalizeBoundaryGo fuel raw = v := by
  intro fuel
  induction fuel with
  | zero =>
    intro raw v h
    exact Except.ok.inj h
  | succ fuel ih =>
    intro raw v h
    by_cases hf : raw.falsy = true
    · have e1 : tNormalizeBoundaryEGo (fuel + 1) raw = Except.ok [] := by
        unfold tNormalizeBoundaryEGo
        rw [if_pos hf]
      have e2 : tNormalizeBoundaryGo (fuel + 1) raw = [] := by
        unfold tNormalizeBoundaryGo
        rw [if_pos hf]
      rw [e1] at h
      rw [e2]
      exact Except.ok.inj h
    · cases raw with
      | null => exact absurd rfl hf
      | boolean b =>
        simp only [tNormalizeBoundaryEGo] at h
        rw [if_neg hf] at h
        simp only [tNormalizeBoundaryGo]
        rw [if_neg hf]
        exact Except.ok.inj h
      | num q =>
        simp only [tNormalizeBoundaryEGo] at h
        rw [if_neg hf] at h
        simp only [tNormalizeBoundaryGo]
        rw [if_neg hf]
        exact Except.ok.inj h
      | str s =>
        simp only [tNormalizeBoundaryEGo] at h
        rw [if_neg hf] at h
        simp only [tNormalizeBoundaryGo]
        rw [if_neg hf]
        exact Except.ok.inj h
      | arr elems =>
        simp only [tNormalizeBoundaryEGo] at h
        rw [if_neg hf] at h
        simp only [tNormalizeBoundaryGo]
        rw [if_neg hf]
        exact Except.ok.inj h
      | dict fields =>
        simp only [tNormalizeBoundaryEGo] at h
        rw [if_neg hf] at h
        simp only [tNormalizeBoundaryGo]
        rw [if_neg hf]
        cases hc : rawGet fields ("coordinates".toList) with
        | none =>
          rw [hc] at h
          exact Except.ok.inj h
        | some c =>
          rw [hc] at h
          cases c with
          | null => exact Except.ok.inj h
          | boolean b => exact Except.ok.inj h
          | num q => exact Except.ok.inj h
          | str s => exact Except.ok.inj h
          | dict fs => exact Except.ok.inj h
          | arr cs =>
            cases cs with
            | nil => exact Except.ok.inj h
            | cons c0 rest =>
              by_cases hp : (rawGetD fields ("type".toList)).isStrEq ("Polygon".toList) = true
              · rw [hp] at h
                rw [hp]
                exact ih c0 v h
              · have hp2 : (rawGetD fields ("type".toList)).isStrEq ("Polygon".toList)
                    = false := by simpa using hp
                rw [hp2] at h
                rw [hp2]
                by_cases hm : (rawGetD fields ("type".toList)).isStrEq
                    ("MultiPolygon".toList) = true
                · rw [hm] at h
                  rw [hm]
                  cases c0 with
                  | arr ds =>
                    cases ds with
                    | nil => exact Except.noConfusion h
                    | cons d0 ds => exact ih d0 v h
                  | str t =>
                    cases t with
                    | nil => exact Except.noConfusion h
                    | cons ch t =>
                      have h2 : tNormalizeBoundaryEGo fuel (Raw.str [ch]) = Except.ok v := h
                      rw [tNormalizeBoundaryEGo_str_one] at h2
                      exact Except.ok.inj h2
                  | dict fs => exact Except.noConfusion h
                  | null => exact Except.noConfusion h
                  | boolean b => exact Except.noConfusion h
                  | num q => exact Except.noConfusion h
                · have hm2 : (rawGetD fields ("type".toList)).isStrEq
                      ("MultiPolygon".toList) = false := by simpa using hm
                  rw [hm2] at h
                  rw [hm2]
                  exact Except.ok.inj h

/-- Agreement at the top level. -/
theorem tNormalizeBoundaryE_ok (raw : Raw) (v : List LatLng)
    (h : tNormalizeBoundaryE raw = Except.ok v) : tNormalizeBoundary raw = v :=
  tNormalizeBoundaryEGo_ok (Raw.size raw) raw v h

/-- C9 counterexample: a representable `MultiPolygon` boundary whose
`coordinates[0]` is a number makes the transformer's `normalize_boundary`
evaluate `coordinates[0][0]` on an `int`, raising an uncaught `TypeError`:
an ingest run carrying such a boundary crashes before any presentation is
emitted, so the claim does not hold for arbitrary boundary values. -/
theorem C9_multipolygon_crash_counterexample :
    tNormalizeBoundaryE (Raw.dict [("type".toList, Raw.str "MultiPolygon".toList),
      ("coordinates".toList, Raw.arr [Raw.num 5])]) =
      Except.error "TypeError: value is not subscriptable" := rfl

/-- C9 (amended): restricted to boundary values the transformer's
`normalize_boundary` processes without raising (`tNormalizeBoundaryE`
returns a value — a malformed `MultiPolygon` instead crashes the run,
see the counterexample), ingesting two documents that each attach the
same hazard (names equal up to trimming and case) to the same location
with two distinct non-blank notes and their own boundaries yields a
single location entry holding exactly one presentation for that hazard
key; its note set holds both stripped notes, its boundary is the first
non-empty normalized boundary, and the emitted dict renders the notes as
the sorted two-element list. -/
theorem C9_presentation_merge (h1 h2 l1 l2 n1 n2 : PyStr) (b1 b2 : Raw)
    (B1 B2 : List LatLng)
    (hb1 : tNormalizeBoundaryE b1 = Except.ok B1)
    (hb2 : tNormalizeBoundaryE b2 = Except.ok B2)
    (hh : normalize_name h2 = normalize_name h1)
    (hl : normalize_name l2 = normalize_name l1)
    (hsh1 : (pyStrip h1).isEmpty = false) (hsh2 : (pyStrip h2).isEmpty = false)
    (hsl1 : (pyStrip l1).isEmpty = false) (hsl2 : (pyStrip l2).isEmpty = false)
    (hsn1 : (pyStrip n1).isEmpty = false) (hsn2 : (pyStrip n2).isEmpty = false)
    (hnn : pyStrip n1 ≠ pyStrip n2) :
    ∃ pres : LocationPresentationAggregate,
      (ingestDocuments
          [{ hazards := [{ name := some h1, presentationList :=
              [{ location := some l1, notes := some n1, boundary := b1 }] }] },
           { hazards := [{ name := some h2, presentationList :=
              [{ location := some l2, notes := some n2, boundary := b2 }] }] }]).locations =
        [(normalize_name l1,
          { name := pyStrip l1, presentationMap := [(normalize_name h1, pres)] })]
      ∧ pres.notes = [pyStrip n1, pyStrip n2]
      ∧ pres.boundary = (if B1.isEmpty then B2 else B1)
      ∧ (∀ hz : AggregatedHazard, (pres.to_dict hz).notes =
          some (NotesOutput.many (sortedNotes [pyStrip n1, pyStrip n2])))
      ∧ (sortedNotes [pyStrip n1, pyStrip n2]).Perm [pyStrip n1, pyStrip n2]
      ∧ (sortedNotes [pyStrip n1, pyStrip n2]).Pairwise (fun a b => charsLe a b = true) := by
  have hstrip1 : ¬ ((pyStrip h1).isEmpty = true) := by
    rw [hsh1]
    exact Bool.false_ne_true
  have hstrip2 : ¬ ((pyStrip h2).isEmpty = true) := by
    rw [hsh2]
    exact Bool.false_ne_true
  have hstripl1 : ¬ ((pyStrip l1).isEmpty = true) := by
    rw [hsl1]
    exact Bool.false_ne_true
  have hstripl2 : ¬ ((pyStrip l2).isEmpty = true) := by
    rw [hsl2]
    exact Bool.false_ne_true
  have eB1 : tNormalizeBoundary b1 = B1 := tNormalizeBoundaryE_ok b1 B1 hb1
  have eB2 : tNormalizeBoundary b2 = B2 := tNormalizeBoundaryE_ok b2 B2 hb2
  refine ⟨{ hazard_key := normalize_name h1,
            boundary := (if B1.isEmpty then B2 else B1),
            notes := [pyStrip n1, pyStrip n2] }, ?_, rfl, rfl, ?_, ?_, ?_⟩
  · have e0 : ingestDocuments
        [{ hazards := [{ name := some h1, presentationList :=
            [{ location := some l1, notes := some n1, boundary := b1 }] }] },
         { hazards := [{ name := some h2, presentationList :=
            [{ location := some l2, notes := some n2, boundary := b2 }] }] }] =
        ingestHazardPayload
          (ingestHazardPayload {}
            { name := some h1, presentationList :=
              [{ location := some l1, notes := some n1, boundary := b1 }] })
          { name := some h2, presentationList :=
            [{ location := some l2, notes := some n2, boundary := b2 }] } := rfl
    rw [e0]
    rw [ingestHazardPayload_some {}
      { name := some h1, presentationList :=
        [{ location := some l1, notes := some n1, boundary := b1 }] } h1 rfl,
      if_neg hstrip1]
    rw [ingestHazardPayload_some _
      { name := some h2, presentationList :=
        [{ location := some l2, notes := some n2, boundary := b2 }] } h2 rfl,
      if_neg hstrip2]
    dsimp only
    simp only [List.foldl_cons, List.foldl_nil]
    rw [ingestPresentationPayload_some [] (normalize_name h1)
      { location := some l1, notes := some n1, boundary := b1 } l1 rfl,
      if_neg hstripl1]
    simp only [setdefaultMerge]
    rw [ingestPresentationPayload_some _ (normalize_name h2)
      { location := some l2, notes := some n2, boundary := b2 } l2 rfl,
      if_neg hstripl2, hl, hh]
    simp only [setdefaultMerge, eq_self_iff_true, if_true]
    simp only [AggregatedLocation.merge_presentation]
    simp only [setdefaultMerge, eq_self_iff_true, if_true]
    rw [presentation_merge_fresh (normalize_name h1) n1 (some l1) b1 hsn1]
    rw [presentation_merge_second (normalize_name h1) n1 n2 (some l2) b2
      (tNormalizeBoundary b1) hsn2 hnn]
    rw [eB1, eB2]
  · intro hz
    simp only [LocationPresentationAggregate.to_dict, List.isEmpty_cons,
      Bool.false_eq_true, if_false]
    have hlen : (sortedNotes [pyStrip n1, pyStrip n2]).length = 2 := by
      unfold sortedNotes
      rw [(List.perm_insertionSort _ _).length_eq]
      rfl
    rw [if_pos (by rw [hlen]; norm_num)]
  · exact List.perm_insertionSort _ _
  · haveI : IsTotal PyStr (fun a b => charsLe a b = true) := ⟨fun a b => charsLe_total a b⟩
    haveI : IsTrans PyStr (fun a b => charsLe a b = true) := ⟨fun a b c => charsLe_trans a b c⟩
    exact List.sorted_insertionSort _ _

/-- Witness for C9: "Bear Activity" at "Rocky Park" twice, with
case/whitespace variants of both names and two distinct notes. -/
theorem C9_presentation_merge_witness :
    ∃ pres : LocationPresentationAggregate,
      (ingestDocuments
          [{ hazards := [{ name := some "Bear Activity".toList, presentationList :=
              [{ location := some "Rocky Park".toList,
                 notes := some "Stay alert.".toList, boundary := Raw.null }] }] },
           { hazards := [{ name := some " bear ACTIVITY ".toList, presentationList :=
              [{ location := some "ROCKY PARK ".toList,
                 notes := some "Hike in groups.".toList, boundary := Raw.null }] }] }]).locations =
        [(normalize_name "Rocky Park".toList,
          { name := pyStrip "Rocky Park".toList,
            presentationMap := [(normalize_name "Bear Activity".toList, pres)] })]
      ∧ pres.notes = [pyStrip "Stay alert.".toList, pyStrip "Hike in groups.".toList]
      ∧ pres.boundary = (if ([] : List LatLng).isEmpty then ([] : List LatLng) else [])
      ∧ (∀ hz : AggregatedHazard, (pres.to_dict hz).notes =
          some (NotesOutput.many
            (sortedNotes [pyStrip "Stay alert.".toList, pyStrip "Hike in groups.".toList])))
      ∧ (sortedNotes [pyStrip "Stay alert.".toList,
          pyStrip "Hike in groups.".toList]).Perm
            [pyStrip "Stay alert.".toList, pyStrip "Hike in groups.".toList]
      ∧ (sortedNotes [pyStrip "Stay alert.".toList,
          pyStrip "Hike in groups.".toList]).Pairwise (fun a b => charsLe a b = true) :=
  C9_presentation_merge "Bear Activity".toList " bear ACTIVITY ".toList
    "Rocky Park".toList "ROCKY PARK ".toList "Stay alert.".toList "Hike in groups.".toList
    Raw.null Raw.null [] [] rfl rfl (by decide) (by decide) (by decide) (by decide)
    (by decide) (by decide) (by decide) (by decide) (by decide)

/-- C10: when the stored boundary normalizes successfully,
`HazardPresentation.contains` returns true exactly when the point is
within the positive-radius circle around the stored center, or — the
circle check failing — the normalized boundary is non-empty and the ray
cast puts the point inside one of its polygons; a circle hit
short-circuits (no boundary normalization happens), and with radius 0 and
an empty boundary the result is false. -/
theorem C10_contains_iff (p : PresentationModel) (lat lng : ℚ) :
    (point_within_circle { latitude := (lat : ℝ), longitude := (lng : ℝ) }
        { latitude := (p.center_latitude : ℝ), longitude := (p.center_longitude : ℝ) }
        (p.radius_meters : ℝ) = true →
      p.contains lat lng = Except.ok true)
    ∧ (∀ polys, normalize_boundary p.boundary = Except.ok polys →
        (p.contains lat lng = Except.ok true ↔
          (point_within_circle { latitude := (lat : ℝ), longitude := (lng : ℝ) }
              { latitude := (p.center_latitude : ℝ), longitude := (p.center_longitude : ℝ) }
              (p.radius_meters : ℝ) = true
            ∨ (polys ≠ [] ∧
                point_within_boundary polys { latitude := lat, longitude := lng } = true))))
    ∧ (p.radius_meters = 0 → normalize_boundary p.boundary = Except.ok [] →
        p.contains lat lng = Except.ok false) := by
  refine ⟨?_, ?_, ?_⟩
  · intro h
    unfold PresentationModel.contains
    rw [if_pos h]
  · intro polys hpolys
    unfold PresentationModel.contains
    by_cases hc : point_within_circle { latitude := (lat : ℝ), longitude := (lng : ℝ) }
        { latitude := (p.center_latitude : ℝ), longitude := (p.center_longitude : ℝ) }
        (p.radius_meters : ℝ) = true
    · rw [if_pos hc]
      exact iff_of_true rfl (Or.inl hc)
    · rw [if_neg hc, hpolys]
      cases polys with
      | nil =>
        simp only [List.isEmpty_nil, if_true]
        constructor
        · intro h
          exact absurd (Except.ok.inj h) Bool.false_ne_true
        · rintro (h | ⟨hne, _⟩)
          · exact absurd h hc
          · exact absurd rfl hne
      | cons q qs =>
        simp only [List.isEmpty_cons, Bool.false_eq_true, if_false]
        constructor
        · intro h
          exact Or.inr ⟨List.cons_ne_nil _ _, Except.ok.inj h⟩
        · rintro (h | ⟨_, hin⟩)
          · exact absurd h hc
          · rw [hin]
  · intro hr hnorm
    unfold PresentationModel.contains
    have hc : point_within_circle { latitude := (lat : ℝ), longitude := (lng : ℝ) }
        { latitude := (p.center_latitude : ℝ), longitude := (p.center_longitude : ℝ) }
        (p.radius_meters : ℝ) = false := by
      unfold point_within_circle
      rw [if_pos]
      rw [hr]
      norm_num
    rw [if_neg (by rw [hc]; exact Bool.false_ne_true), hnorm]
    simp only [List.isEmpty_nil, if_true]

/-- Witness for C10: a radius-0 presentation over a rational square
boundary contains its interior point (5, 5) via the ray cast, and a
radius-0 presentation with an empty boundary contains nothing. -/
theorem C10_contains_iff_witness :
    normalize_boundary (Raw.arr [Raw.arr [Raw.num 0, Raw.num 0],
        Raw.arr [Raw.num 0, Raw.num 10], Raw.arr [Raw.num 10, Raw.num 10],
        Raw.arr [Raw.num 10, Raw.num 0]]) =
      Except.ok [[⟨0, 0⟩, ⟨0, 10⟩, ⟨10, 10⟩, ⟨10, 0⟩]]
    ∧ PresentationModel.contains
        { center_latitude := 0, center_longitude := 0, radius_meters := 0,
          boundary := Raw.arr [Raw.arr [Raw.num 0, Raw.num 0],
            Raw.arr [Raw.num 0, Raw.num 10], Raw.arr [Raw.num 10, Raw.num 10],
            Raw.arr [Raw.num 10, Raw.num 0]] } 5 5 = Except.ok true
    ∧ PresentationModel.contains
        { center_latitude := 0, center_longitude := 0, radius_meters := 0,
          boundary := Raw.null } 5 5 = Except.ok false := by
  have hnorm : normalize_boundary (Raw.arr [Raw.arr [Raw.num 0, Raw.num 0],
      Raw.arr [Raw.num 0, Raw.num 10], Raw.arr [Raw.num 10, Raw.num 10],
      Raw.arr [Raw.num 10, Raw.num 0]]) =
      Except.ok [[⟨0, 0⟩, ⟨0, 10⟩, ⟨10, 10⟩, ⟨10, 0⟩]] := rfl
  have hray : point_within_boundary [[⟨0, 0⟩, ⟨0, 10⟩, ⟨10, 10⟩, ⟨10, 0⟩]]
      { latitude := 5, longitude := 5 } = true := by
    norm_num [point_within_boundary, point_in_polygon, List.range_succ]
    exact List.cons_ne_nil _ _
  refine ⟨hnorm, ?_, ?_⟩
  · exact ((C10_contains_iff
      { center_latitude := 0, center_longitude := 0, radius_meters := 0,
        boundary := Raw.arr [Raw.arr [Raw.num 0, Raw.num 0],
          Raw.arr [Raw.num 0, Raw.num 10], Raw.arr [Raw.num 10, Raw.num 10],
          Raw.arr [Raw.num 10, Raw.num 0]] } 5 5).2.1 _ hnorm).mpr
      (Or.inr ⟨List.cons_ne_nil _ _, hray⟩)
  · exact (C10_contains_iff
      { center_latitude := 0, center_longitude := 0, radius_meters := 0,
        boundary := Raw.null } 5 5).2.2 rfl rfl
